import Mathlib

/-!
Verification of the market-execution simulator core (matching/queue engine).

The definitions below are a shallow embedding of the C++ sources:
`schema.hpp`, `sim.hpp`, `sim_lookup.hpp`, `sim_queue.hpp`, `sim.cpp`,
`sim_orders.cpp`, `sim_fills.cpp`, `sim_aggressive_fills.cpp`, `sim_stp.cpp`.
Machine `int64_t` values are modelled as `Int`; the code checks overflow
explicitly wherever a product can exceed the 64-bit range, and those checks
are modelled explicitly (comparisons against the 64-bit bounds).  Unsigned
128-bit multiply/divide on non-negative operands is modelled with `Nat`
arithmetic, which agrees with the hardware semantics on the asserted domain.
-/

namespace Sim

/-- `md::l2::kPriceScale` (schema.hpp): fixed-point price scale, 10^8. -/
def kPriceScale : Int := 100000000

/-- `md::l2::kDepth` (schema.hpp): number of visible levels per side. -/
def kDepth : Nat := 20

/-- Largest `int64_t` value. -/
def i64Max : Int := 9223372036854775807

/-- Smallest `int64_t` value. -/
def i64Min : Int := -9223372036854775808

/-- `md::l2::kBidNullPriceQ` (schema.hpp): bid null-price sentinel. -/
def kBidNullPriceQ : Int := 0

/-- `md::l2::kAskNullPriceQ` (schema.hpp): ask null-price sentinel (INT64_MAX). -/
def kAskNullPriceQ : Int := i64Max

/-- `sim::Side` (sim.hpp). -/
inductive Side where
  | Buy
  | Sell
deriving DecidableEq, Repr

/-- `sim::OrderType` (sim.hpp). -/
inductive OrderType where
  | Limit
  | Market
deriving DecidableEq, Repr

/-- `sim::Visibility` (sim.hpp). -/
inductive Visibility where
  | Visible
  | Blind
  | Frozen
deriving DecidableEq, Repr

/-- `sim::OrderState` (sim.hpp). -/
inductive OrderState where
  | Pending
  | Active
  | Partial
  | Filled
  | Cancelled
  | Rejected
deriving DecidableEq, Repr

/-- `sim::StpPolicy` (sim.hpp). -/
inductive StpPolicy where
  | None
  | RejectIncoming
  | CancelResting
deriving DecidableEq, Repr

/-- `sim::RejectReason` (sim.hpp). -/
inductive RejectReason where
  | None
  | InvalidParams
  | InsufficientFunds
  | InsufficientResources
  | SelfTradePrevention
  | UnknownOrderId
  | AlreadyTerminal
deriving DecidableEq, Repr

/-- `sim::EventType` (sim.hpp). -/
inductive EventType where
  | Submit
  | Activate
  | Cancel
  | Reject
deriving DecidableEq, Repr

/-- `sim::LiquidityFlag` (sim.hpp). -/
inductive LiquidityFlag where
  | Maker
  | Taker
deriving DecidableEq, Repr

/-- `sim::Ledger` (sim.hpp): fixed-point cash/position and locked reserves. -/
structure Ledger where
  cash_q : Int
  position_qty_q : Int
  locked_cash_q : Int
  locked_position_qty_q : Int
deriving DecidableEq, Repr

/-- `sim::Order` (sim.hpp), without the intrusive list links (bucket
membership is modelled as explicit lists of store indices). -/
structure Order where
  id : Nat
  client_order_id : Nat
  type : OrderType
  side : Side
  price_q : Int
  qty_q : Int
  filled_qty_q : Int
  qty_ahead_q : Int
  last_level_qty_q : Int
  last_level_idx : Int
  visibility : Visibility
  submit_ts : Nat
  activate_ts : Nat
  state : OrderState
  reject_reason : RejectReason
deriving DecidableEq, Repr

/-- `md::l2::Level` (schema.hpp). -/
structure Level where
  price_q : Int
  qty_q : Int
deriving DecidableEq, Repr

/-- `md::l2::Record` (schema.hpp): one snapshot, bids and asks as
sentinel-padded sequences of `kDepth` levels. -/
structure Record where
  ts_recv_ns : Nat
  bids : List Level
  asks : List Level
deriving DecidableEq, Repr

/-- `sim::Event` (sim.hpp). -/
structure Event where
  ts : Nat
  order_id : Nat
  type : EventType
  state : OrderState
  reject_reason : RejectReason
deriving DecidableEq, Repr

/-- `sim::FillEvent` (sim.hpp). -/
structure FillEvent where
  ts : Nat
  order_id : Nat
  side : Side
  price_q : Int
  qty_q : Int
  liq : LiquidityFlag
  notional_cash_q : Int
  fee_cash_q : Int
deriving DecidableEq, Repr

/-- `sim::FeeSchedule` (sim.hpp). -/
structure FeeSchedule where
  maker_fee_ppm : Nat
  taker_fee_ppm : Nat
deriving DecidableEq, Repr

/-- `sim::RiskLimits` (sim.hpp). -/
structure RiskLimits where
  max_abs_position_qty_q : Int
  spot_no_short : Bool
deriving DecidableEq, Repr

/-- `sim::SimulatorParams` (sim.hpp). -/
structure SimulatorParams where
  outbound_latency : Nat
  max_orders : Nat
  max_events : Nat
  alpha_ppm : Nat
  stp : StpPolicy
  fees : FeeSchedule
  risk : RiskLimits
deriving DecidableEq, Repr

/-- `is_terminal` (sim_orders.cpp anonymous namespace). -/
def is_terminal (st : OrderState) : Bool :=
  st = OrderState.Filled ∨ st = OrderState.Cancelled ∨ st = OrderState.Rejected

/-- `is_resting` (sim.cpp / sim_orders.cpp anonymous namespaces). -/
def is_resting (st : OrderState) : Bool :=
  st = OrderState.Active ∨ st = OrderState.Partial

/-- `mul_i64_overflow` (sim_orders.cpp): 128-bit signed product with an
explicit check against the `int64_t` range; `none` signals overflow. -/
def mul_i64_overflow (a b : Int) : Option Int :=
  let prod := a * b
  if prod > i64Max then none
  else if prod < i64Min then none
  else some prod

/-- `mul_div_u64_to_i64` (sim_fills.cpp): `floor((a*b)/div)` with unsigned
128-bit intermediates; the source asserts `a ≥ 0`, `b ≥ 0`, `div > 0`, on
which domain unsigned division is `Nat` division. -/
def mul_div_u64_to_i64 (a b div : Int) : Int :=
  Int.ofNat (a.toNat * b.toNat / div.toNat)

/-- `notional_cash_q` (sim_fills.cpp). -/
def notional_cash_q (price_q qty_q : Int) : Int :=
  mul_div_u64_to_i64 price_q qty_q kPriceScale

/-- `fee_cash_q` (sim_fills.cpp). -/
def fee_cash_q (notional_q : Int) (fee_ppm : Nat) : Int :=
  mul_div_u64_to_i64 notional_q (Int.ofNat fee_ppm) 1000000

/-- `sim::lookup::effective_depletion` (sim_lookup.hpp): depletion scaled by
`alpha_ppm` with the minimum-depletion rule; the unsigned 128-bit product
`_umul128` has a non-zero high word exactly when it reaches `2^64`, in which
case the result saturates to the raw depletion. -/
def effective_depletion (depletion_q : Int) (alpha_ppm : Nat) : Int :=
  if depletion_q ≤ 0 ∨ alpha_ppm = 0 then 0
  else
    let prod : Nat := depletion_q.toNat * alpha_ppm
    if 2 ^ 64 ≤ prod then depletion_q
    else
      let eff : Nat := prod / 1000000
      if eff = 0 then 1
      else if depletion_q.toNat < eff then depletion_q
      else Int.ofNat eff

/-- `sim::lookup::LevelLookup` (sim_lookup.hpp); `idx` is the `int16_t`
slot index with `-1` meaning "not found". -/
structure LevelLookup where
  found : Bool
  within_range : Bool
  idx : Int
  qty_q : Int
  best_q : Int
  worst_q : Int
deriving DecidableEq, Repr

/-- The all-defaults `LevelLookup{}` value of the source. -/
def LevelLookup.empty : LevelLookup :=
  { found := false, within_range := false, idx := -1, qty_q := 0,
    best_q := 0, worst_q := 0 }

/-- `sim::lookup::is_valid_bid_price` (sim_lookup.hpp). -/
def is_valid_bid_price (p : Int) : Bool := p ≠ kBidNullPriceQ

/-- `sim::lookup::is_valid_ask_price` (sim_lookup.hpp). -/
def is_valid_ask_price (p : Int) : Bool := p ≠ kAskNullPriceQ

/-- The prefix of levels before the first bid-null sentinel: the portion the
source's first loop walks (it breaks at the first invalid price). -/
def validBids (bids : List Level) : List Level :=
  bids.takeWhile (fun l => is_valid_bid_price l.price_q)

/-- The prefix of levels before the first ask-null sentinel. -/
def validAsks (asks : List Level) : List Level :=
  asks.takeWhile (fun l => is_valid_ask_price l.price_q)

/-- The source's second loop in `bid_level`: scan the valid prefix in order,
return the slot and quantity on an exact price match, stop early once the
(non-increasing) prices pass below the probe. -/
def scanBid (price_q : Int) : List Level → Nat → Option (Nat × Int)
  | [], _ => none
  | l :: rest, i =>
    if l.price_q = price_q then some (i, l.qty_q)
    else if l.price_q < price_q then none
    else scanBid price_q rest (i + 1)

/-- The second loop in `ask_level`: stop once (non-decreasing) prices pass
above the probe. -/
def scanAsk (price_q : Int) : List Level → Nat → Option (Nat × Int)
  | [], _ => none
  | l :: rest, i =>
    if l.price_q = price_q then some (i, l.qty_q)
    else if l.price_q > price_q then none
    else scanAsk price_q rest (i + 1)

/-- `sim::lookup::bid_level` (sim_lookup.hpp). -/
def bid_level (bids : List Level) (price_q : Int) : LevelLookup :=
  match bids with
  | [] => LevelLookup.empty
  | b0 :: _ =>
    if ¬ is_valid_bid_price b0.price_q then LevelLookup.empty
    else
      let best := b0.price_q
      let worst := ((validBids bids).getLast?.getD b0).price_q
      if price_q > best then
        { LevelLookup.empty with best_q := best, worst_q := worst }
      else if price_q < worst then
        { LevelLookup.empty with best_q := best, worst_q := worst }
      else
        match scanBid price_q (validBids bids) 0 with
        | some (i, q) =>
          { found := true, within_range := true, idx := Int.ofNat i,
            qty_q := q, best_q := best, worst_q := worst }
        | none =>
          { found := false, within_range := true, idx := -1, qty_q := 0,
            best_q := best, worst_q := worst }

/-- `sim::lookup::ask_level` (sim_lookup.hpp). -/
def ask_level (asks : List Level) (price_q : Int) : LevelLookup :=
  match asks with
  | [] => LevelLookup.empty
  | a0 :: _ =>
    if ¬ is_valid_ask_price a0.price_q then LevelLookup.empty
    else
      let best := a0.price_q
      let worst := ((validAsks asks).getLast?.getD a0).price_q
      if price_q < best then
        { LevelLookup.empty with best_q := best, worst_q := worst }
      else if price_q > worst then
        { LevelLookup.empty with best_q := best, worst_q := worst }
      else
        match scanAsk price_q (validAsks asks) 0 with
        | some (i, q) =>
          { found := true, within_range := true, idx := Int.ofNat i,
            qty_q := q, best_q := best, worst_q := worst }
        | none =>
          { found := false, within_range := true, idx := -1, qty_q := 0,
            best_q := best, worst_q := worst }

/-- `MarketSimulator::unlock_on_cancel_` (sim_orders.cpp): release the locks
still held for the unfilled remainder of a limit order, clamping at zero. -/
def unlock_on_cancel (led : Ledger) (o : Order) : Ledger :=
  let remaining := o.qty_q - o.filled_qty_q
  if remaining ≤ 0 then led
  else if o.type ≠ OrderType.Limit then led
  else
    match o.side with
    | Side.Buy =>
      match mul_i64_overflow o.price_q remaining with
      | none => { led with locked_cash_q := 0 }
      | some delta =>
        let l := led.locked_cash_q - delta
        { led with locked_cash_q := if l < 0 then 0 else l }
    | Side.Sell =>
      let l := led.locked_position_qty_q - remaining
      { led with locked_position_qty_q := if l < 0 then 0 else l }

/-- `MarketSimulator::apply_fill_` (sim_fills.cpp): apply one fill at
`price_q` for `qty_q`, updating the ledger, the order state, and emitting
the FillEvent. -/
def apply_fill (params : SimulatorParams) (now : Nat) (led : Ledger)
    (o : Order) (price_q qty_q : Int) (liq : LiquidityFlag) :
    Ledger × Order × FillEvent :=
  let notional_q := notional_cash_q price_q qty_q
  let fee_ppm :=
    if liq = LiquidityFlag.Maker then params.fees.maker_fee_ppm
    else params.fees.taker_fee_ppm
  let fee_q := fee_cash_q notional_q fee_ppm
  let led1 :=
    match o.side with
    | Side.Buy =>
      { led with cash_q := led.cash_q - notional_q - fee_q,
                 position_qty_q := led.position_qty_q + qty_q }
    | Side.Sell =>
      { led with cash_q := led.cash_q + notional_q - fee_q,
                 position_qty_q := led.position_qty_q - qty_q }
  let o1 := { o with filled_qty_q := o.filled_qty_q + qty_q }
  let fe : FillEvent :=
    { ts := now, order_id := o.id, side := o.side, price_q := price_q,
      qty_q := qty_q, liq := liq, notional_cash_q := notional_q,
      fee_cash_q := fee_q }
  if o1.filled_qty_q = o1.qty_q then
    (unlock_on_cancel led1 o1, { o1 with state := OrderState.Filled }, fe)
  else
    (led1, { o1 with state := OrderState.Partial }, fe)

/-- `sim::Tif` (sim.hpp). -/
inductive Tif where
  | GTC
  | IOC
  | FOK
deriving DecidableEq, Repr

/-- `sim::LimitOrderRequest` (sim.hpp). -/
structure LimitOrderRequest where
  side : Side
  price_q : Int
  qty_q : Int
  tif : Tif
  client_order_id : Nat
deriving DecidableEq, Repr

/-- `MarketSimulator::PendingEntry` (sim.hpp). -/
structure PendingEntry where
  activate_ts : Nat
  seq : Nat
  order_id : Nat
deriving DecidableEq, Repr

/-- `MarketSimulator::Bucket` (sim.hpp); the intrusive head/tail/size list
through the orders' `bucket_prev/bucket_next` links is modelled as the
explicit FIFO `members` list of store indices (head first). -/
structure Bucket where
  members : List Nat
  last_level_qty_q : Int
  last_level_idx : Int
  visibility : Visibility
deriving DecidableEq, Repr

/-- A default-constructed `Bucket{}`. -/
def emptyBucket : Bucket :=
  { members := [], last_level_qty_q := 0, last_level_idx := -1,
    visibility := Visibility.Blind }

/-- A default-constructed `Order{}` (used for out-of-range store reads that
the C++ never performs). -/
def defaultOrder : Order :=
  { id := 0, client_order_id := 0, type := OrderType.Limit, side := Side.Buy,
    price_q := 0, qty_q := 0, filled_qty_q := 0, qty_ahead_q := 0,
    last_level_qty_q := 0, last_level_idx := -1,
    visibility := Visibility.Blind, submit_ts := 0, activate_ts := 0,
    state := OrderState.Pending, reject_reason := RejectReason.None }

/-- The `MarketSimulator` state (sim.hpp): order store, id table, pending
min-heap (kept as a list sorted by `(activate_ts, seq)`), active sets,
per-price bucket arrays (kept as price-ascending association lists),
best-active summaries, ledger and logs. -/
structure SimState where
  params : SimulatorParams
  now : Nat
  ledger : Ledger
  orders : List Order
  idToIndex : List (Option Nat)
  pending : List PendingEntry
  nextOrderId : Nat
  nextSeq : Nat
  activeBids : List Nat
  activeAsks : List Nat
  bidBuckets : List (Int × Bucket)
  askBuckets : List (Int × Bucket)
  hasActiveBids : Bool
  hasActiveAsks : Bool
  bestActiveBid : Int
  bestActiveAsk : Int
  deferBucketErase : Bool
  events : List Event
  fills : List FillEvent
deriving DecidableEq, Repr

/-- `MarketSimulator::reset` (sim.cpp): clear state, size the id table to
`max_orders + 1`, set the clock baseline and the initial ledger. -/
def resetState (params : SimulatorParams) (start_ts : Nat) (led : Ledger) :
    SimState :=
  { params := params, now := start_ts, ledger := led, orders := [],
    idToIndex := List.replicate (params.max_orders + 1) none, pending := [],
    nextOrderId := 1, nextSeq := 1, activeBids := [], activeAsks := [],
    bidBuckets := [], askBuckets := [], hasActiveBids := false,
    hasActiveAsks := false, bestActiveBid := 0, bestActiveAsk := 0,
    deferBucketErase := false, events := [], fills := [] }

/-- `MarketSimulator::push_event_` (sim.cpp): append to the event log unless
it is at the `max_events` capacity. -/
def push_event (s : SimState) (ts : Nat) (id : Nat) (et : EventType)
    (st : OrderState) (rr : RejectReason) : Bool × SimState :=
  if s.params.max_events ≤ s.events.length then (false, s)
  else (true, { s with events := s.events ++
    [{ ts := ts, order_id := id, type := et, state := st, reject_reason := rr }] })

/-- `MarketSimulator::validate_limit_` (sim_orders.cpp). -/
def validate_limit (req : LimitOrderRequest) : RejectReason :=
  if req.qty_q ≤ 0 ∨ req.price_q ≤ 0 then RejectReason.InvalidParams
  else RejectReason.None

/-- `MarketSimulator::risk_check_and_lock_limit_` (sim_orders.cpp): validate,
compute the Buy cash lock as the overflow-checked product `price_q * qty_q`
(or the Sell base lock as `qty_q`), check free balances, and lock. -/
def risk_check_and_lock_limit (params : SimulatorParams) (led : Ledger)
    (side : Side) (price_q qty_q : Int) : RejectReason × Ledger :=
  if price_q ≤ 0 ∨ qty_q ≤ 0 then (RejectReason.InvalidParams, led)
  else
    match side with
    | Side.Buy =>
      match mul_i64_overflow price_q qty_q with
      | none => (RejectReason.InvalidParams, led)
      | some required =>
        if required < 0 then (RejectReason.InvalidParams, led)
        else if led.cash_q - led.locked_cash_q < required then
          (RejectReason.InsufficientFunds, led)
        else
          (RejectReason.None,
            { led with locked_cash_q := led.locked_cash_q + required })
    | Side.Sell =>
      if params.risk.spot_no_short ∧
          led.position_qty_q - led.locked_position_qty_q < qty_q then
        (RejectReason.InsufficientFunds, led)
      else
        (RejectReason.None,
          { led with locked_position_qty_q := led.locked_position_qty_q + qty_q })

/-- `MarketSimulator::PendingCmp` (sim.hpp): heap order is by
`activate_ts`, ties by submission sequence. -/
def pendingLe (a b : PendingEntry) : Bool :=
  a.activate_ts < b.activate_ts ∨
    (a.activate_ts = b.activate_ts ∧ a.seq ≤ b.seq)

/-- The pending min-heap, modelled as ordered insertion into a sorted list
(pops take the front, which is the heap's top). -/
def pendingInsert : List PendingEntry → PendingEntry → List PendingEntry
  | [], e => [e]
  | x :: xs, e => if pendingLe e x then e :: x :: xs else x :: pendingInsert xs e

/-- `MarketSimulator::place_limit` (sim_orders.cpp): lifetime caps, request
validation, audit-log capacity, risk check and lock, order creation, Submit
event, pending-heap insertion. -/
def place_limit (s : SimState) (req : LimitOrderRequest) : Nat × SimState :=
  if s.nextOrderId = 0 ∨ s.params.max_orders < s.nextOrderId then
    (0, (push_event s s.now 0 EventType.Reject OrderState.Rejected
      RejectReason.InsufficientResources).2)
  else if s.params.max_orders ≤ s.orders.length then
    (0, (push_event s s.now 0 EventType.Reject OrderState.Rejected
      RejectReason.InsufficientResources).2)
  else
    let vr := validate_limit req
    if vr ≠ RejectReason.None then
      (0, (push_event s s.now 0 EventType.Reject OrderState.Rejected vr).2)
    else if s.params.max_events ≤ s.events.length then
      (0, (push_event s s.now 0 EventType.Reject OrderState.Rejected
        RejectReason.InsufficientResources).2)
    else
      let rl := risk_check_and_lock_limit s.params s.ledger req.side
        req.price_q req.qty_q
      if rl.1 ≠ RejectReason.None then
        (0, (push_event s s.now 0 EventType.Reject OrderState.Rejected rl.1).2)
      else
        let id := s.nextOrderId
        let idx := s.orders.length
        let o : Order :=
          { id := id, client_order_id := req.client_order_id,
            type := OrderType.Limit, side := req.side, price_q := req.price_q,
            qty_q := req.qty_q, filled_qty_q := 0, qty_ahead_q := 0,
            last_level_qty_q := 0, last_level_idx := -1,
            visibility := Visibility.Blind, submit_ts := s.now,
            activate_ts := s.now + s.params.outbound_latency,
            state := OrderState.Pending, reject_reason := RejectReason.None }
        let s1 := { s with
                    ledger := rl.2, orders := s.orders ++ [o],
                    idToIndex := s.idToIndex.set id (some idx),
                    nextOrderId := id + 1 }
        let pe := push_event s1 s1.now id EventType.Submit OrderState.Pending
          RejectReason.None
        if pe.1 then
          (id, { pe.2 with
            pending := pendingInsert pe.2.pending
              { activate_ts := o.activate_ts, seq := pe.2.nextSeq,
                order_id := id },
            nextSeq := pe.2.nextSeq + 1 })
        else
          (0, { s1 with
                idToIndex := s1.idToIndex.set id none,
                orders := s1.orders.dropLast,
                ledger := unlock_on_cancel s1.ledger o })

/-- `std::lower_bound` driven`get_or_insert_*_bucket_idx_` (sim_bucket_list
helpers): insert an empty bucket at the sorted position unless present. -/
def getOrInsertBucket : List (Int × Bucket) → Int → List (Int × Bucket)
  | [], p => [(p, emptyBucket)]
  | (q, b) :: rest, p =>
    if p < q then (p, emptyBucket) :: (q, b) :: rest
    else if p = q then (q, b) :: rest
    else (q, b) :: getOrInsertBucket rest p

/-- `bucket_push_back_*` (sim_bucket_list.cpp): append the order index at
the tail of its price bucket's FIFO. -/
def bucketPushBack (bs : List (Int × Bucket)) (p : Int) (idx : Nat) :
    List (Int × Bucket) :=
  bs.map (fun pb =>
    if pb.1 = p then (pb.1, { pb.2 with members := pb.2.members ++ [idx] })
    else pb)

/-- `bucket_erase_*` plus `erase_*_bucket_if_empty_`: unlink the order index
from its price bucket; when the bucket empties and erasure is not deferred,
drop the bucket entry (the returned flag says whether it was dropped). -/
def bucketEraseMemberWith (defer : Bool) (p : Int) (idx : Nat) :
    List (Int × Bucket) → List (Int × Bucket) × Bool
  | [] => ([], false)
  | (q, b) :: rest =>
    if q = p then
      let b' := { b with members := b.members.erase idx }
      if b'.members.isEmpty ∧ ¬defer then (rest, true)
      else ((q, b') :: rest, false)
    else
      let r := bucketEraseMemberWith defer p idx rest
      ((q, b) :: r.1, r.2)

/-- The best-active-bid summary recomputed by `erase_bid_bucket_if_empty_`:
highest price in the ascending bucket array, if any. -/
def bidSummaries (bs : List (Int × Bucket)) : Bool × Int :=
  match bs.getLast? with
  | none => (false, 0)
  | some pb => (true, pb.1)

/-- The best-active-ask summary recomputed by `erase_ask_bucket_if_empty_`:
lowest price in the ascending bucket array, if any. -/
def askSummaries (bs : List (Int × Bucket)) : Bool × Int :=
  match bs.head? with
  | none => (false, 0)
  | some pb => (true, pb.1)

/-- The swap-pop removal of `remove_active_*` on the dense active vector:
the `active_*_pos_` back-pointer table is represented by the position of the
store index in the vector (they coincide under the active-set invariant);
`none` is the `pos == kInvalidIndex` early return. -/
def removeActiveList (act : List Nat) (oidx : Nat) : Option (List Nat) :=
  match act.indexOf? oidx with
  | none => none
  | some pos => some ((act.set pos (act.getLastD 0)).dropLast)

/-- `MarketSimulator::remove_active_bid_` (sim_activate_set.cpp): erase the
order from its price bucket (refreshing the best-bid summary if the bucket
was dropped), then swap-pop it out of the active vector. -/
def remove_active_bid (s : SimState) (oidx : Nat) : SimState :=
  match removeActiveList s.activeBids oidx with
  | none => s
  | some ab =>
    let price := (s.orders.getD oidx defaultOrder).price_q
    let r := bucketEraseMemberWith s.deferBucketErase price oidx s.bidBuckets
    let sums := if r.2 then bidSummaries r.1 else (s.hasActiveBids, s.bestActiveBid)
    { s with
      activeBids := ab, bidBuckets := r.1,
      hasActiveBids := sums.1, bestActiveBid := sums.2 }

/-- `MarketSimulator::remove_active_ask_` (sim_activate_set.cpp). -/
def remove_active_ask (s : SimState) (oidx : Nat) : SimState :=
  match removeActiveList s.activeAsks oidx with
  | none => s
  | some aa =>
    let price := (s.orders.getD oidx defaultOrder).price_q
    let r := bucketEraseMemberWith s.deferBucketErase price oidx s.askBuckets
    let sums := if r.2 then askSummaries r.1 else (s.hasActiveAsks, s.bestActiveAsk)
    { s with
      activeAsks := aa, askBuckets := r.1,
      hasActiveAsks := sums.1, bestActiveAsk := sums.2 }

/-- `MarketSimulator::cancel` (sim_orders.cpp): fail fast on unknown ids,
terminal orders, or a full event log; otherwise unlink a resting order from
its active set and bucket, release the remaining locks, transition to
Cancelled and emit the Cancel event. -/
def cancel (s : SimState) (order_id : Nat) : Bool × SimState :=
  if order_id = 0 ∨ s.idToIndex.length ≤ order_id then (false, s)
  else
    match s.idToIndex.getD order_id none with
    | none => (false, s)
    | some idx =>
      match s.orders.get? idx with
      | none => (false, s)
      | some o =>
        if is_terminal o.state then (false, s)
        else if s.params.max_events ≤ s.events.length then (false, s)
        else
          let s1 :=
            if is_resting o.state then
              (if o.side = Side.Buy then remove_active_bid s idx
               else remove_active_ask s idx)
            else s
          let s2 := { s1 with
                      ledger := unlock_on_cancel s1.ledger o,
                      orders := s1.orders.set idx
                        { o with state := OrderState.Cancelled } }
          push_event s2 s2.now o.id EventType.Cancel OrderState.Cancelled
            RejectReason.None

/-- A null level, as the padding `Level{kBidNullPriceQ, kNullQtyQ}`. -/
def nullBidLevel : Level := { price_q := kBidNullPriceQ, qty_q := 0 }

/-- Best bid of a record: `rec.bids[0].price_q`. -/
def bestBidOf (rec : Record) : Int := (rec.bids.headD nullBidLevel).price_q

/-- A null ask level, `Level{kAskNullPriceQ, kNullQtyQ}`. -/
def nullAskLevel : Level := { price_q := kAskNullPriceQ, qty_q := 0 }

/-- Best ask of a record: `rec.asks[0].price_q`. -/
def bestAskOf (rec : Record) : Int := (rec.asks.headD nullAskLevel).price_q

/-- The trade-through signal inside the passive loop
(apply_passive_fills_one_bucket_, sim.cpp): a crossed book voids the
queue-ahead estimate. -/
def tradeThroughOrder (side : Side) (bucket_price best_bid best_ask : Int)
    (o : Order) : Order :=
  match side with
  | Side.Buy =>
    if is_valid_ask_price best_ask ∧ best_ask ≤ bucket_price then
      { o with qty_ahead_q := 0 }
    else o
  | Side.Sell =>
    if is_valid_bid_price best_bid ∧ best_bid ≥ bucket_price then
      { o with qty_ahead_q := 0 }
    else o

/-- The body of the FIFO allocation loop of
`apply_passive_fills_one_bucket_` (sim.cpp) for one resting limit member
processed with budget `Ep`: mirror the bucket observations, apply the
trade-through signal, consume `Ep` into queue advance, then, when the early
break on an exhausted `Ep` does not fire and `qty_ahead` reached zero,
allocate the remaining `Ep` as a passive fill.  Returns the updated order
and the `(queue-consumed, fill)` pair. -/
def passiveStep (side : Side) (bucket_price best_bid best_ask : Int)
    (vis : Visibility) (lidx lqty : Int) (Ep : Int) (o : Order) :
    Order × Int × Int :=
  let o1 := { o with
              visibility := vis, last_level_idx := lidx,
              last_level_qty_q := lqty }
  let o2 := tradeThroughOrder side bucket_price best_bid best_ask o1
  let c := if o2.qty_ahead_q > 0 then min o2.qty_ahead_q Ep else 0
  let o3 := { o2 with qty_ahead_q := o2.qty_ahead_q - c }
  let Ep1 := Ep - c
  if Ep1 = 0 then (o3, c, 0)
  else if o3.qty_ahead_q = 0 then
    let remaining := o3.qty_q - o3.filled_qty_q
    if remaining > 0 then
      let f := min remaining Ep1
      ({ o3 with
         filled_qty_q := o3.filled_qty_q + f,
         state := if o3.filled_qty_q + f = o3.qty_q then OrderState.Filled
           else OrderState.Partial }, c, f)
    else (o3, c, 0)
  else (o3, c, 0)

/-- The FIFO allocation loop of `apply_passive_fills_one_bucket_` (sim.cpp):
walk the bucket members from the head while the budget `Ep` is positive,
applying `passiveStep` to each resting limit order and skipping the rest.
The loop's early break once `Ep` hits zero is realised by the `Ep ≤ 0`
guard of the recursion, which leaves the remaining members untouched with
zero allocations, exactly as the break does.  Returns the updated members
and the per-member `(queue-consumed, fill)` quantities. -/
def passive_alloc (side : Side) (bucket_price best_bid best_ask : Int)
    (vis : Visibility) (lidx lqty : Int) :
    Int → List Order → List Order × List (Int × Int)
  | _, [] => ([], [])
  | Ep, o :: rest =>
    if Ep ≤ 0 then (o :: rest, (0, 0) :: rest.map (fun _ => (0, 0)))
    else if ¬(is_resting o.state ∧ o.type = OrderType.Limit) then
      let r := passive_alloc side bucket_price best_bid best_ask vis lidx lqty
        Ep rest
      (o :: r.1, (0, 0) :: r.2)
    else
      let st := passiveStep side bucket_price best_bid best_ask vis lidx lqty
        Ep o
      let r := passive_alloc side bucket_price best_bid best_ask vis lidx lqty
        (Ep - st.2.1 - st.2.2) rest
      (st.1 :: r.1, (st.2.1, st.2.2) :: r.2)

/-- The bucket-level visibility/queue fields of `Bucket` (sim.hpp) seen by
`apply_passive_fills_one_bucket_`; the FIFO is passed alongside as the list
of member orders. -/
structure BucketView where
  visibility : Visibility
  last_level_idx : Int
  last_level_qty_q : Int
deriving DecidableEq, Repr

/-- `MarketSimulator::apply_passive_fills_one_bucket_` (sim.cpp): bucket
visibility state machine (pessimistic re-anchor on reappearance, frozen
transitions, all mirrored onto resting limit members), bucket-level
depletion with `effective_depletion`, and the FIFO passive allocation.
The bucket FIFO is represented by its member orders in head-first order. -/
def apply_passive_fills_one_bucket (alpha_ppm : Nat) (rec : Record)
    (bucket_price : Int) (b : BucketView) (side : Side)
    (members : List Order) : BucketView × List Order :=
  let best_bid := bestBidOf rec
  let best_ask := bestAskOf rec
  let m := if side = Side.Buy then bid_level rec.bids bucket_price
           else ask_level rec.asks bucket_price
  if m.found then
    if b.visibility = Visibility.Frozen ∨ b.visibility = Visibility.Blind ∨
        b.last_level_idx < 0 then
      ({ visibility := Visibility.Visible, last_level_idx := m.idx,
         last_level_qty_q := m.qty_q },
       members.map (fun o =>
         if is_resting o.state ∧ o.type = OrderType.Limit then
           { o with
             visibility := Visibility.Visible, last_level_idx := m.idx,
             last_level_qty_q := m.qty_q, qty_ahead_q := m.qty_q }
         else o))
    else if b.visibility ≠ Visibility.Visible then (b, members)
    else
      let prev := b.last_level_qty_q
      let nowq := m.qty_q
      let depl := if prev > nowq then prev - nowq else 0
      let Ep := effective_depletion depl alpha_ppm
      let b1 : BucketView :=
        { visibility := b.visibility,
          last_level_idx := m.idx, last_level_qty_q := nowq }
      if Ep ≤ 0 ∨ members.isEmpty then (b1, members)
      else
        (b1, (passive_alloc side bucket_price best_bid best_ask b1.visibility
          b1.last_level_idx b1.last_level_qty_q Ep members).1)
  else
    if m.within_range then
      if b.visibility = Visibility.Blind then
        ({ visibility := Visibility.Visible, last_level_idx := -1,
           last_level_qty_q := 0 },
         members.map (fun o =>
           if is_resting o.state ∧ o.type = OrderType.Limit then
             { o with
               visibility := Visibility.Visible, last_level_idx := -1,
               last_level_qty_q := 0, qty_ahead_q := 0 }
           else o))
      else if b.visibility = Visibility.Visible ∧ 0 ≤ b.last_level_idx then
        ({ visibility := Visibility.Frozen, last_level_idx := -1,
           last_level_qty_q := 0 },
         members.map (fun o =>
           if is_resting o.state ∧ o.type = OrderType.Limit then
             { o with
               visibility := Visibility.Frozen, last_level_idx := -1,
               last_level_qty_q := 0 }
           else o))
      else (b, members)
    else
      if b.visibility = Visibility.Visible then
        ({ visibility := Visibility.Frozen, last_level_idx := -1,
           last_level_qty_q := 0 },
         members.map (fun o =>
           if is_resting o.state ∧ o.type = OrderType.Limit then
             { o with
               visibility := Visibility.Frozen, last_level_idx := -1,
               last_level_qty_q := 0 }
           else o))
      else (b, members)

/-- Concrete fee schedule used by witnesses. -/
def sampleFees : FeeSchedule := { maker_fee_ppm := 500, taker_fee_ppm := 700 }

/-- Concrete risk limits used by witnesses. -/
def sampleRisk : RiskLimits := { max_abs_position_qty_q := 0, spot_no_short := true }

/-- Concrete simulator parameters used by witnesses. -/
def sampleParams : SimulatorParams :=
  { outbound_latency := 10, max_orders := 32, max_events := 1024,
    alpha_ppm := 500000, stp := StpPolicy.RejectIncoming,
    fees := sampleFees, risk := sampleRisk }

/-- Concrete ledger used by witnesses. -/
def sampleLedger : Ledger :=
  { cash_q := 1000000000000, position_qty_q := 1000000000000,
    locked_cash_q := 0, locked_position_qty_q := 0 }

/-- Concrete active buy order used by witnesses. -/
def sampleOrderBuy : Order :=
  { id := 1, client_order_id := 0, type := OrderType.Limit, side := Side.Buy,
    price_q := 200000000, qty_q := 500000000, filled_qty_q := 0,
    qty_ahead_q := 0, last_level_qty_q := 0, last_level_idx := -1,
    visibility := Visibility.Visible, submit_ts := 0, activate_ts := 10,
    state := OrderState.Active, reject_reason := RejectReason.None }

end Sim

namespace Sim

/-- C3: `effective_depletion` returns 0 on non-positive depletion or zero
alpha; the floored scaled depletion when it is positive and the 128-bit
product fits below `2^64`; 1 when the floor would truncate a positive
depletion to zero (minimum-depletion rule); and saturates to the raw
depletion when the product overflows into the high 64-bit word. -/
theorem effective_depletion_cases (d : Int) (a : Nat) (ha : a ≤ 1000000) :
    (d ≤ 0 ∨ a = 0 → effective_depletion d a = 0)
    ∧ (0 < d → 0 < a → d.toNat * a < 2 ^ 64 → 0 < d.toNat * a / 1000000 →
        effective_depletion d a = Int.ofNat (d.toNat * a / 1000000))
    ∧ (0 < d → 0 < a → d.toNat * a < 2 ^ 64 → d.toNat * a / 1000000 = 0 →
        effective_depletion d a = 1)
    ∧ (0 < d → 0 < a → 2 ^ 64 ≤ d.toNat * a → effective_depletion d a = d) := by
  refine ⟨?_, ?_, ?_, ?_⟩
  · intro h
    simp only [effective_depletion]
    rw [if_pos h]
  · intro hd hapos hlt hpos
    have hne : ¬ (d ≤ 0 ∨ a = 0) := by
      push_neg
      exact ⟨hd, hapos.ne'⟩
    have hle : d.toNat * a / 1000000 ≤ d.toNat := by
      calc d.toNat * a / 1000000 ≤ d.toNat * 1000000 / 1000000 :=
            Nat.div_le_div_right (Nat.mul_le_mul_left _ ha)
        _ = d.toNat := Nat.mul_div_cancel d.toNat (by norm_num)
    simp only [effective_depletion]
    rw [if_neg hne, if_neg (Nat.not_le.mpr hlt), if_neg hpos.ne',
      if_neg (Nat.not_lt.mpr hle)]
  · intro hd hapos hlt hzero
    have hne : ¬ (d ≤ 0 ∨ a = 0) := by
      push_neg
      exact ⟨hd, hapos.ne'⟩
    simp only [effective_depletion]
    rw [if_neg hne, if_neg (Nat.not_le.mpr hlt), if_pos hzero]
  · intro hd hapos hov
    have hne : ¬ (d ≤ 0 ∨ a = 0) := by
      push_neg
      exact ⟨hd, hapos.ne'⟩
    simp only [effective_depletion]
    rw [if_neg hne, if_pos hov]

/-- Witness for C3: concrete evaluation through each interesting branch. -/
theorem effective_depletion_cases_witness :
    effective_depletion 3 500000 = Int.ofNat ((3 : Int).toNat * 500000 / 1000000) :=
  (effective_depletion_cases 3 500000 (by decide)).2.1 (by decide) (by decide)
    (by decide) (by decide)

/-- On non-negative operands the unsigned 128-bit multiply/floor-divide is
the mathematical floor division. -/
theorem mul_div_u64_to_i64_eq_ediv (a b d : Int) (ha : 0 ≤ a) (hb : 0 ≤ b)
    (hd : 0 ≤ d) : mul_div_u64_to_i64 a b d = Int.ediv (a * b) d := by
  obtain ⟨n, rfl⟩ := Int.eq_ofNat_of_zero_le ha
  obtain ⟨m, rfl⟩ := Int.eq_ofNat_of_zero_le hb
  obtain ⟨k, rfl⟩ := Int.eq_ofNat_of_zero_le hd
  rfl

/-- The result of the unsigned multiply/divide is never negative. -/
theorem mul_div_u64_to_i64_nonneg (a b d : Int) :
    0 ≤ mul_div_u64_to_i64 a b d :=
  Int.natCast_nonneg _

/-- C6: one fill at price `p`, quantity `q` records a FillEvent whose
notional is `floor((p*q)/PRICE_SCALE)` and whose fee is
`floor(notional*fee_ppm/1e6)` with the maker ppm for Maker liquidity and the
taker ppm for Taker liquidity; the ledger's cash moves by exactly
`-(notional+fee)` and its position by `+q` for a Buy, by `+(notional-fee)`
and `-q` for a Sell, and the locked balances are untouched. -/
theorem apply_fill_spec (params : SimulatorParams) (now : Nat) (led : Ledger)
    (o : Order) (p q : Int) (liq : LiquidityFlag) (hp : 0 ≤ p) (hq : 0 ≤ q) :
    ∃ led' o' fe, apply_fill params now led o p q liq = (led', o', fe)
    ∧ fe.notional_cash_q = Int.ediv (p * q) kPriceScale
    ∧ fe.fee_cash_q = Int.ediv (fe.notional_cash_q *
        Int.ofNat (if liq = LiquidityFlag.Maker then params.fees.maker_fee_ppm
          else params.fees.taker_fee_ppm)) 1000000
    ∧ fe.price_q = p ∧ fe.qty_q = q ∧ fe.liq = liq ∧ fe.order_id = o.id
    ∧ (o.side = Side.Buy →
        led'.cash_q = led.cash_q - (fe.notional_cash_q + fe.fee_cash_q)
        ∧ led'.position_qty_q = led.position_qty_q + q)
    ∧ (o.side = Side.Sell →
        led'.cash_q = led.cash_q + (fe.notional_cash_q - fe.fee_cash_q)
        ∧ led'.position_qty_q = led.position_qty_q - q)
    ∧ led'.locked_cash_q = led.locked_cash_q
    ∧ led'.locked_position_qty_q = led.locked_position_qty_q
    ∧ o'.filled_qty_q = o.filled_qty_q + q := by
  have hnot : notional_cash_q p q = Int.ediv (p * q) kPriceScale :=
    mul_div_u64_to_i64_eq_ediv p q kPriceScale hp hq (by norm_num [kPriceScale])
  have hnotnn : 0 ≤ notional_cash_q p q := mul_div_u64_to_i64_nonneg _ _ _
  have hfee : ∀ ppm : Nat, fee_cash_q (notional_cash_q p q) ppm =
      Int.ediv (notional_cash_q p q * Int.ofNat ppm) 1000000 := fun _ =>
    mul_div_u64_to_i64_eq_ediv _ _ _ hnotnn (Int.natCast_nonneg _) (by norm_num)
  have hnoop : ∀ (l : Ledger) (o1 : Order), o1.qty_q - o1.filled_qty_q ≤ 0 →
      unlock_on_cancel l o1 = l := by
    intro l o1 h
    simp only [unlock_on_cancel]
    rw [if_pos h]
  cases hside : o.side
  case Buy =>
    simp only [apply_fill, hside]
    split
    · rename_i hfull
      rw [hnoop _ _ (by simp only [Order.qty_q, Order.filled_qty_q] at hfull ⊢; omega)]
      exact ⟨_, _, _, rfl, hnot, hfee _, rfl, rfl, rfl, rfl,
        fun _ => ⟨sub_sub _ _ _, rfl⟩,
        fun h => absurd h (by simp), rfl, rfl, rfl⟩
    · exact ⟨_, _, _, rfl, hnot, hfee _, rfl, rfl, rfl, rfl,
        fun _ => ⟨sub_sub _ _ _, rfl⟩,
        fun h => absurd h (by simp), rfl, rfl, rfl⟩
  case Sell =>
    simp only [apply_fill, hside]
    split
    · rename_i hfull
      rw [hnoop _ _ (by simp only [Order.qty_q, Order.filled_qty_q] at hfull ⊢; omega)]
      exact ⟨_, _, _, rfl, hnot, hfee _, rfl, rfl, rfl, rfl,
        fun h => absurd h (by simp),
        fun _ => ⟨add_sub_assoc _ _ _, rfl⟩, rfl, rfl, rfl⟩
    · exact ⟨_, _, _, rfl, hnot, hfee _, rfl, rfl, rfl, rfl,
        fun h => absurd h (by simp),
        fun _ => ⟨add_sub_assoc _ _ _, rfl⟩, rfl, rfl, rfl⟩

/-- C2 counterexample: on a fresh simulator with ample cash, the Buy limit
order (price_q = 100, qty_q = 10) is accepted, and the locked cash grows by
the raw product 1000, not by the fixed-point notional
`floor(price_q*qty_q/PRICE_SCALE)`, which is 0. -/
theorem place_limit_lock_counterexample :
    (place_limit (resetState sampleParams 0 sampleLedger)
      { side := Side.Buy, price_q := 100, qty_q := 10, tif := Tif.GTC,
        client_order_id := 0 }).1 ≠ 0
    ∧ (place_limit (resetState sampleParams 0 sampleLedger)
        { side := Side.Buy, price_q := 100, qty_q := 10, tif := Tif.GTC,
          client_order_id := 0 }).2.ledger.locked_cash_q -
        (resetState sampleParams 0 sampleLedger).ledger.locked_cash_q = 1000
    ∧ Int.ediv (100 * 10) kPriceScale = 0 := by decide

/-- C2 (amended): for a Buy limit order passing the lifetime, validation and
audit-capacity gates, with `price_q * qty_q` in 64-bit range, submission is
rejected with InsufficientFunds (and only the Reject event logged) exactly
when free cash is below the raw product `price_q * qty_q`; on acceptance
`locked_cash_q` grows by exactly that product and cash is untouched. -/
theorem place_limit_buy_lock (s : SimState) (req : LimitOrderRequest)
    (hside : req.side = Side.Buy)
    (hp : 0 < req.price_q) (hq : 0 < req.qty_q)
    (hmax : req.price_q * req.qty_q ≤ i64Max)
    (hid : ¬(s.nextOrderId = 0 ∨ s.params.max_orders < s.nextOrderId))
    (hord : ¬ s.params.max_orders ≤ s.orders.length)
    (hev : ¬ s.params.max_events ≤ s.events.length) :
    (s.ledger.cash_q - s.ledger.locked_cash_q < req.price_q * req.qty_q →
      (place_limit s req).1 = 0
      ∧ (place_limit s req).2 = { s with events := s.events ++
          [{ ts := s.now, order_id := 0, type := EventType.Reject,
             state := OrderState.Rejected,
             reject_reason := RejectReason.InsufficientFunds }] })
    ∧ (req.price_q * req.qty_q ≤ s.ledger.cash_q - s.ledger.locked_cash_q →
      (place_limit s req).1 ≠ 0
      ∧ (place_limit s req).2.ledger.locked_cash_q =
          s.ledger.locked_cash_q + req.price_q * req.qty_q
      ∧ (place_limit s req).2.ledger.cash_q = s.ledger.cash_q
      ∧ (place_limit s req).2.ledger.position_qty_q = s.ledger.position_qty_q) := by
  have hval : validate_limit req = RejectReason.None := by
    simp only [validate_limit]
    rw [if_neg]
    push_neg
    exact ⟨hq, hp⟩
  have hprodpos : 0 ≤ req.price_q * req.qty_q := le_of_lt (mul_pos hp hq)
  have hminle : ¬ req.price_q * req.qty_q < i64Min := by
    rw [not_lt]
    calc i64Min ≤ 0 := by norm_num [i64Min]
      _ ≤ req.price_q * req.qty_q := hprodpos
  have hover : mul_i64_overflow req.price_q req.qty_q =
      some (req.price_q * req.qty_q) := by
    simp only [mul_i64_overflow]
    rw [if_neg (not_lt.mpr hmax), if_neg hminle]
  have hrc : ¬ (req.price_q ≤ 0 ∨ req.qty_q ≤ 0) := by
    push_neg
    exact ⟨hp, hq⟩
  have hrisk : risk_check_and_lock_limit s.params s.ledger req.side
      req.price_q req.qty_q =
      (if s.ledger.cash_q - s.ledger.locked_cash_q < req.price_q * req.qty_q
       then (RejectReason.InsufficientFunds, s.ledger)
       else (RejectReason.None, { s.ledger with locked_cash_q :=
         s.ledger.locked_cash_q + req.price_q * req.qty_q })) := by
    simp only [risk_check_and_lock_limit, hside, hover]
    rw [if_neg hrc, if_neg (not_lt.mpr hprodpos)]
  constructor
  · intro hfunds
    simp only [place_limit, hrisk, if_pos hfunds]
    rw [if_neg hid, if_neg hord, if_neg (by rw [hval]; simp),
      if_neg hev, if_pos (by simp)]
    simp only [push_event]
    rw [if_neg hev]
    exact ⟨trivial, rfl⟩
  · intro hfunds
    have hfunds' : ¬ s.ledger.cash_q - s.ledger.locked_cash_q <
        req.price_q * req.qty_q := not_lt.mpr hfunds
    simp only [place_limit, hrisk, if_neg hfunds']
    rw [if_neg hid, if_neg hord, if_neg (by rw [hval]; simp),
      if_neg hev, if_neg (by simp)]
    simp only [push_event]
    rw [if_neg hev]
    push_neg at hid
    exact ⟨hid.1, rfl, rfl, rfl⟩

/-- Witness for the amended C2: concrete acceptance locks the raw product. -/
theorem place_limit_buy_lock_witness :
    (place_limit (resetState sampleParams 0 sampleLedger)
      { side := Side.Buy, price_q := 100, qty_q := 10, tif := Tif.GTC,
        client_order_id := 0 }).1 ≠ 0
    ∧ (place_limit (resetState sampleParams 0 sampleLedger)
        { side := Side.Buy, price_q := 100, qty_q := 10, tif := Tif.GTC,
          client_order_id := 0 }).2.ledger.locked_cash_q =
        (resetState sampleParams 0 sampleLedger).ledger.locked_cash_q +
          100 * 10
    ∧ (place_limit (resetState sampleParams 0 sampleLedger)
        { side := Side.Buy, price_q := 100, qty_q := 10, tif := Tif.GTC,
          client_order_id := 0 }).2.ledger.cash_q =
        (resetState sampleParams 0 sampleLedger).ledger.cash_q
    ∧ (place_limit (resetState sampleParams 0 sampleLedger)
        { side := Side.Buy, price_q := 100, qty_q := 10, tif := Tif.GTC,
          client_order_id := 0 }).2.ledger.position_qty_q =
        (resetState sampleParams 0 sampleLedger).ledger.position_qty_q :=
  (place_limit_buy_lock (resetState sampleParams 0 sampleLedger)
    { side := Side.Buy, price_q := 100, qty_q := 10, tif := Tif.GTC,
      client_order_id := 0 } rfl (by decide) (by decide) (by decide)
    (by decide) (by decide) (by decide)).2 (by decide)

/-- The order record that `place_limit` creates on acceptance. -/
def newLimitOrder (s : SimState) (req : LimitOrderRequest) : Order :=
  { id := s.nextOrderId, client_order_id := req.client_order_id,
    type := OrderType.Limit, side := req.side, price_q := req.price_q,
    qty_q := req.qty_q, filled_qty_q := 0, qty_ahead_q := 0,
    last_level_qty_q := 0, last_level_idx := -1,
    visibility := Visibility.Blind, submit_ts := s.now,
    activate_ts := s.now + s.params.outbound_latency,
    state := OrderState.Pending, reject_reason := RejectReason.None }

/-- `getD` after `set` at an in-range position reads the stored value. -/
theorem listGetDSet {α : Type} (l : List α) (i : Nat) (v d : α)
    (h : i < l.length) : (l.set i v).getD i d = v := by
  induction l generalizing i with
  | nil => simp at h
  | cons x xs ih =>
    cases i with
    | zero => rfl
    | succ n =>
      simp only [List.set, List.getD, List.get?]
      exact ih n (by simpa using h)

/-- `get?` at the length of the prefix of an appended singleton. -/
theorem listGetConcatLength {α : Type} (l : List α) (a : α) :
    (l ++ [a]).get? l.length = some a := by
  induction l with
  | nil => rfl
  | cons x xs ih => simp [ih]

/-- C10: submitting an accepted limit order and immediately cancelling it
while still Pending restores the ledger exactly and appends exactly one
Submit and one Cancel event. -/
theorem place_then_cancel_roundtrip (s : SimState) (req : LimitOrderRequest)
    (hp : 0 < req.price_q) (hq : 0 < req.qty_q)
    (hid : ¬(s.nextOrderId = 0 ∨ s.params.max_orders < s.nextOrderId))
    (hord : ¬ s.params.max_orders ≤ s.orders.length)
    (hev2 : s.events.length + 1 < s.params.max_events)
    (hidx : s.nextOrderId < s.idToIndex.length)
    (hrisk : (risk_check_and_lock_limit s.params s.ledger req.side
      req.price_q req.qty_q).1 = RejectReason.None)
    (hlc : 0 ≤ s.ledger.locked_cash_q)
    (hlp : 0 ≤ s.ledger.locked_position_qty_q) :
    (place_limit s req).1 ≠ 0
    ∧ (cancel (place_limit s req).2 (place_limit s req).1).1 = true
    ∧ (cancel (place_limit s req).2 (place_limit s req).1).2.ledger = s.ledger
    ∧ (cancel (place_limit s req).2 (place_limit s req).1).2.events =
        s.events ++
          [{ ts := s.now, order_id := s.nextOrderId, type := EventType.Submit,
             state := OrderState.Pending, reject_reason := RejectReason.None },
           { ts := s.now, order_id := s.nextOrderId, type := EventType.Cancel,
             state := OrderState.Cancelled,
             reject_reason := RejectReason.None }] := by
  have hid' := hid
  push_neg at hid'
  have hval : validate_limit req = RejectReason.None := by
    simp only [validate_limit]
    rw [if_neg]
    push_neg
    exact ⟨hq, hp⟩
  have hev1 : ¬ s.params.max_events ≤ s.events.length := by omega
  have hprodnn : 0 ≤ req.price_q * req.qty_q := le_of_lt (mul_pos hp hq)
  have hrc : ¬ (req.price_q ≤ 0 ∨ req.qty_q ≤ 0) := by
    push_neg
    exact ⟨hp, hq⟩
  have hplace : place_limit s req =
      (s.nextOrderId,
        { s with
          ledger := (risk_check_and_lock_limit s.params s.ledger req.side
            req.price_q req.qty_q).2,
          orders := s.orders ++ [newLimitOrder s req],
          idToIndex := s.idToIndex.set s.nextOrderId (some s.orders.length),
          nextOrderId := s.nextOrderId + 1,
          events := s.events ++
            [{ ts := s.now, order_id := s.nextOrderId,
               type := EventType.Submit, state := OrderState.Pending,
               reject_reason := RejectReason.None }],
          pending := pendingInsert s.pending
            { activate_ts := s.now + s.params.outbound_latency,
              seq := s.nextSeq, order_id := s.nextOrderId },
          nextSeq := s.nextSeq + 1 }) := by
    simp only [place_limit]
    rw [if_neg hid, if_neg hord, if_neg (by rw [hval]; simp), if_neg hev1,
      if_neg (by rw [hrisk]; simp)]
    simp only [push_event]
    rw [if_neg hev1, if_pos rfl]
    rfl
  have hunlock : unlock_on_cancel
      (risk_check_and_lock_limit s.params s.ledger req.side req.price_q
        req.qty_q).2 (newLimitOrder s req) = s.ledger := by
    cases hside : req.side
    case Buy =>
      rw [hside] at hrisk
      by_cases hmaxb : i64Max < req.price_q * req.qty_q
      · exfalso
        have hbad : risk_check_and_lock_limit s.params s.ledger Side.Buy
            req.price_q req.qty_q = (RejectReason.InvalidParams, s.ledger) := by
          simp only [risk_check_and_lock_limit, mul_i64_overflow]
          rw [if_neg hrc, if_pos hmaxb]
        rw [hbad] at hrisk
        simp at hrisk
      · have hminle : ¬ req.price_q * req.qty_q < i64Min := by
          rw [not_lt]
          calc i64Min ≤ 0 := by norm_num [i64Min]
            _ ≤ _ := hprodnn
        have hov : mul_i64_overflow req.price_q req.qty_q =
            some (req.price_q * req.qty_q) := by
          simp only [mul_i64_overflow]
          rw [if_neg hmaxb, if_neg hminle]
        by_cases hfunds : s.ledger.cash_q - s.ledger.locked_cash_q <
            req.price_q * req.qty_q
        · exfalso
          have hbad : risk_check_and_lock_limit s.params s.ledger Side.Buy
              req.price_q req.qty_q =
              (RejectReason.InsufficientFunds, s.ledger) := by
            simp only [risk_check_and_lock_limit, hov]
            rw [if_neg hrc, if_neg (not_lt.mpr hprodnn), if_pos hfunds]
          rw [hbad] at hrisk
          simp at hrisk
        · have hrl : risk_check_and_lock_limit s.params s.ledger Side.Buy
              req.price_q req.qty_q =
              (RejectReason.None, { s.ledger with locked_cash_q :=
                s.ledger.locked_cash_q + req.price_q * req.qty_q }) := by
            simp only [risk_check_and_lock_limit, hov]
            rw [if_neg hrc, if_neg (not_lt.mpr hprodnn), if_neg hfunds]
          rw [hrl]
          simp only [unlock_on_cancel, newLimitOrder, hside, sub_zero]
          rw [if_neg (by omega), if_neg (by simp), hov]
          dsimp only
          rw [add_sub_cancel_right, if_neg (not_lt.mpr hlc)]
    case Sell =>
      rw [hside] at hrisk
      by_cases hshort : s.params.risk.spot_no_short ∧
          s.ledger.position_qty_q - s.ledger.locked_position_qty_q < req.qty_q
      · exfalso
        have hbad : risk_check_and_lock_limit s.params s.ledger Side.Sell
            req.price_q req.qty_q =
            (RejectReason.InsufficientFunds, s.ledger) := by
          simp only [risk_check_and_lock_limit]
          rw [if_neg hrc, if_pos hshort]
        rw [hbad] at hrisk
        simp at hrisk
      · have hrl : risk_check_and_lock_limit s.params s.ledger Side.Sell
            req.price_q req.qty_q =
            (RejectReason.None, { s.ledger with locked_position_qty_q :=
              s.ledger.locked_position_qty_q + req.qty_q }) := by
          simp only [risk_check_and_lock_limit]
          rw [if_neg hrc, if_neg hshort]
        rw [hrl]
        simp only [unlock_on_cancel, newLimitOrder, hside, sub_zero]
        rw [if_neg (by omega), if_neg (by simp),
          add_sub_cancel_right, if_neg (not_lt.mpr hlp)]
  rw [hplace]
  simp only [cancel]
  rw [if_neg (by
    rw [List.length_set]
    push_neg
    exact ⟨hid'.1, hidx⟩)]
  rw [listGetDSet _ _ _ _ hidx]
  dsimp only
  rw [listGetConcatLength]
  dsimp only
  rw [if_neg (by simp [is_terminal, newLimitOrder]),
    if_neg (by simp only [List.length_append, List.length_cons,
      List.length_nil]; omega)]
  rw [if_neg (by simp [is_resting, newLimitOrder])]
  simp only [push_event]
  rw [if_neg (by simp only [List.length_append, List.length_cons,
    List.length_nil]; omega)]
  refine ⟨hid'.1, rfl, hunlock, ?_⟩
  simp [newLimitOrder]

/-- Witness for C10: the round trip at a concrete accepted buy order. -/
theorem place_then_cancel_roundtrip_witness :
    (place_limit (resetState sampleParams 0 sampleLedger)
      { side := Side.Buy, price_q := 100, qty_q := 10, tif := Tif.GTC,
        client_order_id := 0 }).1 ≠ 0
    ∧ (cancel (place_limit (resetState sampleParams 0 sampleLedger)
        { side := Side.Buy, price_q := 100, qty_q := 10, tif := Tif.GTC,
          client_order_id := 0 }).2
        (place_limit (resetState sampleParams 0 sampleLedger)
          { side := Side.Buy, price_q := 100, qty_q := 10, tif := Tif.GTC,
            client_order_id := 0 }).1).1 = true
    ∧ (cancel (place_limit (resetState sampleParams 0 sampleLedger)
        { side := Side.Buy, price_q := 100, qty_q := 10, tif := Tif.GTC,
          client_order_id := 0 }).2
        (place_limit (resetState sampleParams 0 sampleLedger)
          { side := Side.Buy, price_q := 100, qty_q := 10, tif := Tif.GTC,
            client_order_id := 0 }).1).2.ledger =
        (resetState sampleParams 0 sampleLedger).ledger
    ∧ (cancel (place_limit (resetState sampleParams 0 sampleLedger)
        { side := Side.Buy, price_q := 100, qty_q := 10, tif := Tif.GTC,
          client_order_id := 0 }).2
        (place_limit (resetState sampleParams 0 sampleLedger)
          { side := Side.Buy, price_q := 100, qty_q := 10, tif := Tif.GTC,
            client_order_id := 0 }).1).2.events =
        (resetState sampleParams 0 sampleLedger).events ++
          [{ ts := (resetState sampleParams 0 sampleLedger).now,
             order_id := (resetState sampleParams 0 sampleLedger).nextOrderId,
             type := EventType.Submit, state := OrderState.Pending,
             reject_reason := RejectReason.None },
           { ts := (resetState sampleParams 0 sampleLedger).now,
             order_id := (resetState sampleParams 0 sampleLedger).nextOrderId,
             type := EventType.Cancel, state := OrderState.Cancelled,
             reject_reason := RejectReason.None }] :=
  place_then_cancel_roundtrip (resetState sampleParams 0 sampleLedger)
    { side := Side.Buy, price_q := 100, qty_q := 10, tif := Tif.GTC,
      client_order_id := 0 } (by decide) (by decide) (by decide) (by decide)
    (by decide) (by decide) (by decide) (by decide) (by decide)

/-- Sum of the derived allocation amounts over an untouched tail is zero. -/
theorem sumMapZero (l : List Order) :
    ((l.map (fun _ => ((0 : Int), (0 : Int)))).map
      (fun a => a.1 + a.2)).sum = 0 := by
  induction l with
  | nil => rfl
  | cons x xs ih => simp [ih]

/-- One passive step consumes a non-negative split of the budget. -/
theorem passiveStep_bounds (side : Side) (bp bb ba : Int) (vis : Visibility)
    (lidx lqty Ep : Int) (o : Order) (hEp : 0 < Ep) :
    0 ≤ (passiveStep side bp bb ba vis lidx lqty Ep o).2.1
    ∧ 0 ≤ (passiveStep side bp bb ba vis lidx lqty Ep o).2.2
    ∧ (passiveStep side bp bb ba vis lidx lqty Ep o).2.1 +
        (passiveStep side bp bb ba vis lidx lqty Ep o).2.2 ≤ Ep := by
  simp only [passiveStep]
  split_ifs <;> simp <;> omega

/-- The trade-through signal only touches `qty_ahead`. -/
theorem tradeThroughOrder_filled (side : Side) (bp bb ba : Int) (o : Order) :
    (tradeThroughOrder side bp bb ba o).filled_qty_q = o.filled_qty_q := by
  simp only [tradeThroughOrder]
  cases side <;> split_ifs <;> rfl

/-- The trade-through signal leaves the order quantity unchanged. -/
theorem tradeThroughOrder_qty (side : Side) (bp bb ba : Int) (o : Order) :
    (tradeThroughOrder side bp bb ba o).qty_q = o.qty_q := by
  simp only [tradeThroughOrder]
  cases side <;> split_ifs <;> rfl

/-- One passive step moves the order's queue position forward by the
consumed amount and fills it by the fill amount. -/
theorem passiveStep_order (side : Side) (bp bb ba : Int) (vis : Visibility)
    (lidx lqty Ep : Int) (o : Order) :
    ((passiveStep side bp bb ba vis lidx lqty Ep o).1).qty_ahead_q =
      (tradeThroughOrder side bp bb ba
        { o with
          visibility := vis, last_level_idx := lidx,
          last_level_qty_q := lqty }).qty_ahead_q -
        (passiveStep side bp bb ba vis lidx lqty Ep o).2.1
    ∧ ((passiveStep side bp bb ba vis lidx lqty Ep o).1).filled_qty_q =
      o.filled_qty_q + (passiveStep side bp bb ba vis lidx lqty Ep o).2.2 := by
  simp only [passiveStep]
  split_ifs <;> simp [tradeThroughOrder_filled, tradeThroughOrder_qty]

/-- Every per-member allocation of the passive loop is non-negative. -/
theorem passive_alloc_nonneg (side : Side) (bp bb ba : Int)
    (vis : Visibility) (lidx lqty : Int) :
    ∀ (orders : List Order) (Ep : Int),
      ∀ a ∈ (passive_alloc side bp bb ba vis lidx lqty Ep orders).2,
        0 ≤ a.1 ∧ 0 ≤ a.2 := by
  intro orders
  induction orders with
  | nil =>
    intro Ep a ha
    simp [passive_alloc] at ha
  | cons o rest ih =>
    intro Ep a ha
    simp only [passive_alloc] at ha
    split_ifs at ha with h1 h2
    · simp only [List.mem_cons, List.mem_map] at ha
      rcases ha with rfl | ⟨x, _, rfl⟩ <;> exact ⟨le_refl 0, le_refl 0⟩
    · simp only [List.mem_cons] at ha
      rcases ha with rfl | hmem
      · have := passiveStep_bounds side bp bb ba vis lidx lqty Ep o (by omega)
        exact ⟨this.1, this.2.1⟩
      · exact ih _ a hmem
    · simp only [List.mem_cons] at ha
      rcases ha with rfl | hmem
      · exact ⟨le_refl 0, le_refl 0⟩
      · exact ih Ep a hmem

/-- The passive loop never hands out more than the effective depletion:
the allocation amounts sum to at most `Ep`. -/
theorem passive_alloc_sum_le (side : Side) (bp bb ba : Int)
    (vis : Visibility) (lidx lqty : Int) :
    ∀ (orders : List Order) (Ep : Int), 0 ≤ Ep →
      ((passive_alloc side bp bb ba vis lidx lqty Ep orders).2.map
        (fun a => a.1 + a.2)).sum ≤ Ep := by
  intro orders
  induction orders with
  | nil =>
    intro Ep hEp
    simp only [passive_alloc, List.map_nil, List.sum_nil]
    exact hEp
  | cons o rest ih =>
    intro Ep hEp
    simp only [passive_alloc]
    split_ifs with h1 h2
    · have hz := sumMapZero rest
      simp only [List.map_cons, List.sum_cons]
      omega
    · simp only [List.map_cons, List.sum_cons]
      have hb := passiveStep_bounds side bp bb ba vis lidx lqty Ep o (by omega)
      have hr := ih (Ep - (passiveStep side bp bb ba vis lidx lqty Ep o).2.1 -
        (passiveStep side bp bb ba vis lidx lqty Ep o).2.2) (by omega)
      omega
    · simp only [List.map_cons, List.sum_cons]
      have := ih Ep hEp
      omega

/-- In a list of non-negative integers every member is at most the sum. -/
theorem member_le_sum (l : List Int) (h0 : ∀ x ∈ l, 0 ≤ x) :
    ∀ m ∈ l, m ≤ l.sum := by
  induction l with
  | nil => simp
  | cons x xs ih =>
    intro m hm
    have hxs0 : ∀ y ∈ xs, 0 ≤ y := fun y hy => h0 y (List.mem_cons_of_mem _ hy)
    have hxs : 0 ≤ xs.sum := List.sum_nonneg hxs0
    have hx := h0 x (List.mem_cons_self x xs)
    simp only [List.mem_cons] at hm
    simp only [List.sum_cons]
    rcases hm with rfl | hm
    · omega
    · have := ih hxs0 m hm
      omega

/-- A positive value bounded below by the sum of a non-negative list occurs
at most once in it. -/
theorem count_le_one_of_sum_le (S : Int) (hS : 0 < S) :
    ∀ (l : List Int), (∀ x ∈ l, 0 ≤ x) → l.sum ≤ S → l.count S ≤ 1 := by
  intro l
  induction l with
  | nil =>
    intro _ _
    simp
  | cons x xs ih =>
    intro h0 hsum
    have hxs0 : ∀ y ∈ xs, 0 ≤ y := fun y hy => h0 y (List.mem_cons_of_mem _ hy)
    have hx := h0 x (List.mem_cons_self x xs)
    have hxs_sum : 0 ≤ xs.sum := List.sum_nonneg hxs0
    simp only [List.sum_cons] at hsum
    by_cases hxe : x = S
    · subst hxe
      have hzero : xs.count x = 0 := by
        rw [List.count_eq_zero]
        intro hmem
        have := member_le_sum xs hxs0 x hmem
        omega
      simp [List.count_cons, hzero]
    · have hrec := ih hxs0 (by omega)
      simp [List.count_cons, hxe]
      omega

/-- C4: over one bucket pass with effective depletion `Ep > 0`, the FIFO
allocator gives each walked resting limit order first a queue advance of
`min(qty_ahead, remaining Ep)` (after the trade-through signal), then a fill
of `min(original - filled, remaining Ep)` only once its `qty_ahead` is zero;
the allocation amounts sum to at most `Ep`, and no two members both receive
the entire `Ep`. -/
theorem passive_alloc_no_double_depletion (side : Side) (bp bb ba : Int)
    (vis : Visibility) (lidx lqty Ep : Int) (orders : List Order)
    (hEp : 0 < Ep) :
    ((passive_alloc side bp bb ba vis lidx lqty Ep orders).2.map
      (fun a => a.1 + a.2)).sum ≤ Ep
    ∧ ((passive_alloc side bp bb ba vis lidx lqty Ep orders).2.map
      (fun a => a.1 + a.2)).count Ep ≤ 1
    ∧ (∀ (o : Order) (rest : List Order), orders = o :: rest →
        is_resting o.state = true → o.type = OrderType.Limit →
        passive_alloc side bp bb ba vis lidx lqty Ep orders =
          ((passiveStep side bp bb ba vis lidx lqty Ep o).1 ::
            (passive_alloc side bp bb ba vis lidx lqty
              (Ep - (passiveStep side bp bb ba vis lidx lqty Ep o).2.1 -
                (passiveStep side bp bb ba vis lidx lqty Ep o).2.2) rest).1,
           ((passiveStep side bp bb ba vis lidx lqty Ep o).2.1,
            (passiveStep side bp bb ba vis lidx lqty Ep o).2.2) ::
            (passive_alloc side bp bb ba vis lidx lqty
              (Ep - (passiveStep side bp bb ba vis lidx lqty Ep o).2.1 -
                (passiveStep side bp bb ba vis lidx lqty Ep o).2.2) rest).2))
    ∧ (∀ o2 : Order,
        (passiveStep side bp bb ba vis lidx lqty Ep o2).2.1 =
          (if 0 < (tradeThroughOrder side bp bb ba
              { o2 with
                visibility := vis, last_level_idx := lidx,
                last_level_qty_q := lqty }).qty_ahead_q then
            min (tradeThroughOrder side bp bb ba
              { o2 with
                visibility := vis, last_level_idx := lidx,
                last_level_qty_q := lqty }).qty_ahead_q Ep
          else 0)
        ∧ ((passiveStep side bp bb ba vis lidx lqty Ep o2).1).qty_ahead_q =
            (tradeThroughOrder side bp bb ba
              { o2 with
                visibility := vis, last_level_idx := lidx,
                last_level_qty_q := lqty }).qty_ahead_q -
              (passiveStep side bp bb ba vis lidx lqty Ep o2).2.1
        ∧ (((passiveStep side bp bb ba vis lidx lqty Ep o2).1).qty_ahead_q ≠ 0 →
            (passiveStep side bp bb ba vis lidx lqty Ep o2).2.2 = 0)
        ∧ (((passiveStep side bp bb ba vis lidx lqty Ep o2).1).qty_ahead_q = 0 →
            Ep - (passiveStep side bp bb ba vis lidx lqty Ep o2).2.1 ≠ 0 →
            0 < o2.qty_q - o2.filled_qty_q →
            (passiveStep side bp bb ba vis lidx lqty Ep o2).2.2 =
              min (o2.qty_q - o2.filled_qty_q)
                (Ep - (passiveStep side bp bb ba vis lidx lqty Ep o2).2.1))
        ∧ ((passiveStep side bp bb ba vis lidx lqty Ep o2).1).filled_qty_q =
            o2.filled_qty_q +
              (passiveStep side bp bb ba vis lidx lqty Ep o2).2.2) := by
  refine ⟨passive_alloc_sum_le side bp bb ba vis lidx lqty orders Ep
    (le_of_lt hEp), ?_, ?_, ?_⟩
  · refine count_le_one_of_sum_le Ep hEp _ ?_
      (passive_alloc_sum_le side bp bb ba vis lidx lqty orders Ep
        (le_of_lt hEp))
    intro x hx
    simp only [List.mem_map] at hx
    obtain ⟨a, ha, rfl⟩ := hx
    have := passive_alloc_nonneg side bp bb ba vis lidx lqty orders Ep a ha
    omega
  · intro o rest hord hr hl
    subst hord
    simp only [passive_alloc]
    rw [if_neg (by omega), if_neg (by simp [hr, hl])]
  · intro o2
    refine ⟨?_, (passiveStep_order side bp bb ba vis lidx lqty Ep o2).1,
      ?_, ?_, (passiveStep_order side bp bb ba vis lidx lqty Ep o2).2⟩
    · simp only [passiveStep]
      split_ifs <;> simp
    · intro hqa
      rw [(passiveStep_order side bp bb ba vis lidx lqty Ep o2).1] at hqa
      simp only [passiveStep] at hqa ⊢
      split_ifs at hqa ⊢ <;> simp_all
    · intro hqa hEp1 hrem
      simp only [passiveStep] at hqa hEp1 ⊢
      split_ifs at hqa hEp1 ⊢ <;>
        simp_all [tradeThroughOrder_filled, tradeThroughOrder_qty]

/-- Witness for C4: a concrete bucket pass with two resting orders. -/
theorem passive_alloc_no_double_depletion_witness :
    ((passive_alloc Side.Buy 99 100 101 Visibility.Visible 1 38 2
      [{ id := 2, client_order_id := 0, type := OrderType.Limit,
         side := Side.Buy, price_q := 99, qty_q := 5, filled_qty_q := 0,
         qty_ahead_q := 1, last_level_qty_q := 40, last_level_idx := 1,
         visibility := Visibility.Visible, submit_ts := 0, activate_ts := 0,
         state := OrderState.Active, reject_reason := RejectReason.None }]).2.map
      (fun a => a.1 + a.2)).sum ≤ 2
    ∧ ((passive_alloc Side.Buy 99 100 101 Visibility.Visible 1 38 2
      [{ id := 2, client_order_id := 0, type := OrderType.Limit,
         side := Side.Buy, price_q := 99, qty_q := 5, filled_qty_q := 0,
         qty_ahead_q := 1, last_level_qty_q := 40, last_level_idx := 1,
         visibility := Visibility.Visible, submit_ts := 0, activate_ts := 0,
         state := OrderState.Active, reject_reason := RejectReason.None }]).2.map
      (fun a => a.1 + a.2)).count 2 ≤ 1 :=
  ⟨(passive_alloc_no_double_depletion Side.Buy 99 100 101 Visibility.Visible
      1 38 2 _ (by decide)).1,
   (passive_alloc_no_double_depletion Side.Buy 99 100 101 Visibility.Visible
      1 38 2 _ (by decide)).2.1⟩

/-- C9: when a bucket's price is found in the snapshot's top-N while the
bucket was Frozen or Blind or had no last-level slot, the tick re-anchors
pessimistically: every resting limit member's `qty_ahead` is set to the
displayed quantity at the found level, the slot index and quantity are
recorded on the bucket and the members, visibility becomes Visible, and no
member's filled quantity changes (no passive fill on that tick). -/
theorem reanchor_pessimistic (alpha : Nat) (rec : Record) (bp : Int)
    (b : BucketView) (side : Side) (members : List Order)
    (hfound : (if side = Side.Buy then bid_level rec.bids bp
      else ask_level rec.asks bp).found = true)
    (hre : b.visibility = Visibility.Frozen ∨
      b.visibility = Visibility.Blind ∨ b.last_level_idx < 0) :
    (apply_passive_fills_one_bucket alpha rec bp b side members).1.visibility =
      Visibility.Visible
    ∧ (apply_passive_fills_one_bucket alpha rec bp b side
        members).1.last_level_idx =
      (if side = Side.Buy then bid_level rec.bids bp
        else ask_level rec.asks bp).idx
    ∧ (apply_passive_fills_one_bucket alpha rec bp b side
        members).1.last_level_qty_q =
      (if side = Side.Buy then bid_level rec.bids bp
        else ask_level rec.asks bp).qty_q
    ∧ (apply_passive_fills_one_bucket alpha rec bp b side
        members).2.length = members.length
    ∧ (∀ o ∈ (apply_passive_fills_one_bucket alpha rec bp b side members).2,
        is_resting o.state = true → o.type = OrderType.Limit →
        o.qty_ahead_q = (if side = Side.Buy then bid_level rec.bids bp
          else ask_level rec.asks bp).qty_q
        ∧ o.visibility = Visibility.Visible
        ∧ o.last_level_idx = (if side = Side.Buy then bid_level rec.bids bp
          else ask_level rec.asks bp).idx)
    ∧ (apply_passive_fills_one_bucket alpha rec bp b side members).2.map
        (fun o => o.filled_qty_q) =
      members.map (fun o => o.filled_qty_q) := by
  simp only [apply_passive_fills_one_bucket]
  rw [if_pos hfound, if_pos hre]
  refine ⟨rfl, rfl, rfl, by rw [List.length_map], ?_, ?_⟩
  · intro o ho hrest hlim
    simp only [List.mem_map] at ho
    obtain ⟨o0, _, rfl⟩ := ho
    by_cases hc : is_resting o0.state = true ∧ o0.type = OrderType.Limit
    · rw [if_pos hc] at hrest hlim ⊢
      exact ⟨rfl, rfl, rfl⟩
    · rw [if_neg hc] at hrest hlim ⊢
      exact absurd ⟨hrest, hlim⟩ hc
  · rw [List.map_map]
    apply List.map_congr_left
    intro o _
    simp only [Function.comp]
    split_ifs <;> rfl

/-- Witness for C9: a Frozen bucket at price 99 reappearing with displayed
quantity 77 re-anchors its resting member to `qty_ahead = 77`. -/
theorem reanchor_pessimistic_witness :
    (apply_passive_fills_one_bucket 1000000
      { ts_recv_ns := 2,
        bids := [{ price_q := 100, qty_q := 10 }, { price_q := 99, qty_q := 77 }],
        asks := [{ price_q := 101, qty_q := 10 }] } 99
      { visibility := Visibility.Frozen, last_level_idx := -1,
        last_level_qty_q := 0 } Side.Buy
      [{ id := 3, client_order_id := 0, type := OrderType.Limit,
         side := Side.Buy, price_q := 99, qty_q := 5, filled_qty_q := 0,
         qty_ahead_q := 40, last_level_qty_q := 0, last_level_idx := -1,
         visibility := Visibility.Frozen, submit_ts := 0, activate_ts := 0,
         state := OrderState.Active,
         reject_reason := RejectReason.None }]).1.visibility =
      Visibility.Visible
    ∧ (apply_passive_fills_one_bucket 1000000
      { ts_recv_ns := 2,
        bids := [{ price_q := 100, qty_q := 10 }, { price_q := 99, qty_q := 77 }],
        asks := [{ price_q := 101, qty_q := 10 }] } 99
      { visibility := Visibility.Frozen, last_level_idx := -1,
        last_level_qty_q := 0 } Side.Buy
      [{ id := 3, client_order_id := 0, type := OrderType.Limit,
         side := Side.Buy, price_q := 99, qty_q := 5, filled_qty_q := 0,
         qty_ahead_q := 40, last_level_qty_q := 0, last_level_idx := -1,
         visibility := Visibility.Frozen, submit_ts := 0, activate_ts := 0,
         state := OrderState.Active,
         reject_reason := RejectReason.None }]).2.map
        (fun o => o.filled_qty_q) =
      ([{ id := 3, client_order_id := 0, type := OrderType.Limit,
          side := Side.Buy, price_q := 99, qty_q := 5, filled_qty_q := 0,
          qty_ahead_q := 40, last_level_qty_q := 0, last_level_idx := -1,
          visibility := Visibility.Frozen, submit_ts := 0, activate_ts := 0,
          state := OrderState.Active,
          reject_reason := RejectReason.None }] : List Order).map
        (fun o => o.filled_qty_q) :=
  ⟨(reanchor_pessimistic 1000000
      { ts_recv_ns := 2,
        bids := [{ price_q := 100, qty_q := 10 }, { price_q := 99, qty_q := 77 }],
        asks := [{ price_q := 101, qty_q := 10 }] } 99
      { visibility := Visibility.Frozen, last_level_idx := -1,
        last_level_qty_q := 0 } Side.Buy
      [{ id := 3, client_order_id := 0, type := OrderType.Limit,
         side := Side.Buy, price_q := 99, qty_q := 5, filled_qty_q := 0,
         qty_ahead_q := 40, last_level_qty_q := 0, last_level_idx := -1,
         visibility := Visibility.Frozen, submit_ts := 0, activate_ts := 0,
         state := OrderState.Active, reject_reason := RejectReason.None }]
      (by decide) (Or.inl rfl)).1,
   (reanchor_pessimistic 1000000
      { ts_recv_ns := 2,
        bids := [{ price_q := 100, qty_q := 10 }, { price_q := 99, qty_q := 77 }],
        asks := [{ price_q := 101, qty_q := 10 }] } 99
      { visibility := Visibility.Frozen, last_level_idx := -1,
        last_level_qty_q := 0 } Side.Buy
      [{ id := 3, client_order_id := 0, type := OrderType.Limit,
         side := Side.Buy, price_q := 99, qty_q := 5, filled_qty_q := 0,
         qty_ahead_q := 40, last_level_qty_q := 0, last_level_idx := -1,
         visibility := Visibility.Frozen, submit_ts := 0, activate_ts := 0,
         state := OrderState.Active, reject_reason := RejectReason.None }]
      (by decide) (Or.inl rfl)).2.2.2.2.2⟩

/-- The per-level price admissibility of the aggressive sweep
(`apply_aggressive_fills_`, sim_aggressive_fills.cpp): for a Buy the ask
price must be valid and not exceed the limit, mirrored for a Sell. -/
def priceOkSide (side : Side) (limit px : Int) : Bool :=
  match side with
  | Side.Buy => is_valid_ask_price px && decide (px ≤ limit)
  | Side.Sell => is_valid_bid_price px && decide (px ≥ limit)

/-- The Taker FillEvent that `apply_fill_` records for one consumed level. -/
def takerFillEvent (params : SimulatorParams) (now : Nat) (oid : Nat)
    (side : Side) (px dq : Int) : FillEvent :=
  { ts := now, order_id := oid, side := side, price_q := px, qty_q := dq,
    liq := LiquidityFlag.Taker, notional_cash_q := notional_cash_q px dq,
    fee_cash_q := fee_cash_q (notional_cash_q px dq)
      params.fees.taker_fee_ppm }

/-- The inner per-order sweep of `apply_aggressive_fills_`
(sim_aggressive_fills.cpp): walk the opposing visible levels from index 0
outward, carrying the step-scoped mutable copy of the remaining displayed
quantity per level (`ask_qty_rem`/`bid_qty_rem`) paired with each level;
break once the order is filled, the level price is invalid, or the price
violates the limit; skip exhausted levels; otherwise consume
`min(remaining, avail)` through `apply_fill_` as Taker. -/
def sweepLevels (params : SimulatorParams) (now : Nat) (side : Side)
    (limit : Int) :
    Ledger → Order → List (Level × Int) →
      Ledger × Order × List (Level × Int) × List FillEvent
  | led, o, [] => (led, o, [], [])
  | led, o, (lvl, avail) :: rest =>
    if o.qty_q - o.filled_qty_q ≤ 0 then (led, o, (lvl, avail) :: rest, [])
    else if ¬ priceOkSide side limit lvl.price_q then
      (led, o, (lvl, avail) :: rest, [])
    else if avail ≤ 0 then
      let r := sweepLevels params now side limit led o rest
      (r.1, r.2.1, (lvl, avail) :: r.2.2.1, r.2.2.2)
    else
      let dq := min (o.qty_q - o.filled_qty_q) avail
      let af := apply_fill params now led o lvl.price_q dq LiquidityFlag.Taker
      let r := sweepLevels params now side limit af.1 af.2.1 rest
      (r.1, r.2.1, (lvl, avail - dq) :: r.2.2.1, af.2.2 :: r.2.2.2)

/-- The per-bucket FIFO threading of `apply_aggressive_fills_`: each member
order in turn sweeps the SAME remaining-depth copy, so agent orders consume
liquidity sequentially; non-resting or non-limit members are skipped. -/
def sweepFifo (params : SimulatorParams) (now : Nat) (side : Side)
    (limit : Int) :
    Ledger → List Order → List (Level × Int) →
      Ledger × List Order × List (Level × Int) × List FillEvent
  | led, [], la => (led, [], la, [])
  | led, o :: os, la =>
    if ¬(is_resting o.state ∧ o.side = side ∧ o.type = OrderType.Limit) then
      let r := sweepFifo params now side limit led os la
      (r.1, o :: r.2.1, r.2.2.1, r.2.2.2)
    else if o.qty_q - o.filled_qty_q ≤ 0 then
      let r := sweepFifo params now side limit led os la
      (r.1, o :: r.2.1, r.2.2.1, r.2.2.2)
    else
      let sw := sweepLevels params now side limit led o la
      let r := sweepFifo params now side limit sw.1 os sw.2.2.1
      (r.1, sw.2.1 :: r.2.1, r.2.2.1, sw.2.2.2 ++ r.2.2.2)

/-- Default level/avail pair for positional reads. -/
def defaultLevelAvail : Level × Int := ({ price_q := 0, qty_q := 0 }, 0)

/-- `apply_fill_` leaves the order's identity, side and quantity unchanged
and advances its filled quantity by the fill quantity. -/
theorem apply_fill_order_fields (params : SimulatorParams) (now : Nat)
    (led : Ledger) (o : Order) (p q : Int) (liq : LiquidityFlag) :
    (apply_fill params now led o p q liq).2.1.id = o.id
    ∧ (apply_fill params now led o p q liq).2.1.side = o.side
    ∧ (apply_fill params now led o p q liq).2.1.qty_q = o.qty_q
    ∧ (apply_fill params now led o p q liq).2.1.filled_qty_q =
        o.filled_qty_q + q := by
  simp only [apply_fill]
  split_ifs <;> exact ⟨rfl, rfl, rfl, rfl⟩

/-- The FillEvent recorded by `apply_fill_`, in closed form. -/
theorem apply_fill_fe (params : SimulatorParams) (now : Nat) (led : Ledger)
    (o : Order) (p q : Int) (liq : LiquidityFlag) :
    (apply_fill params now led o p q liq).2.2 =
      { ts := now, order_id := o.id, side := o.side, price_q := p,
        qty_q := q, liq := liq, notional_cash_q := notional_cash_q p q,
        fee_cash_q := fee_cash_q (notional_cash_q p q)
          (if liq = LiquidityFlag.Maker then params.fees.maker_fee_ppm
           else params.fees.taker_fee_ppm) } := by
  simp only [apply_fill]
  split_ifs <;> rfl

/-- The sweep preserves the order's identity and the level identities of
the depth copy (only availabilities change). -/
theorem sweepLevels_struct (params : SimulatorParams) (now : Nat)
    (side : Side) (limit : Int) :
    ∀ (la : List (Level × Int)) (led : Ledger) (o : Order),
      (sweepLevels params now side limit led o la).2.1.id = o.id
      ∧ (sweepLevels params now side limit led o la).2.1.side = o.side
      ∧ (sweepLevels params now side limit led o la).2.1.qty_q = o.qty_q
      ∧ (sweepLevels params now side limit led o la).2.2.1.length = la.length
      ∧ ∀ i, ((sweepLevels params now side limit led o la).2.2.1.getD i
          defaultLevelAvail).1 = (la.getD i defaultLevelAvail).1 := by
  intro la
  induction la with
  | nil =>
    intro led o
    exact ⟨rfl, rfl, rfl, rfl, fun i => rfl⟩
  | cons hd tl ih =>
    intro led o
    simp only [sweepLevels]
    split_ifs with h1 h2 h3
    · exact ⟨rfl, rfl, rfl, rfl, fun i => rfl⟩
    · obtain ⟨hid, hside, hqty, hlen, hlvl⟩ := ih led o
      refine ⟨hid, hside, hqty, ?_, ?_⟩
      · simp [hlen]
      · intro i
        cases i with
        | zero => rfl
        | succ j => simpa using hlvl j
    · obtain ⟨hid, hside, hqty, hlen, hlvl⟩ :=
        ih (apply_fill params now led o hd.1.price_q
          (min (o.qty_q - o.filled_qty_q) hd.2) LiquidityFlag.Taker).1
        (apply_fill params now led o hd.1.price_q
          (min (o.qty_q - o.filled_qty_q) hd.2) LiquidityFlag.Taker).2.1
      have haf := apply_fill_order_fields params now led o hd.1.price_q
        (min (o.qty_q - o.filled_qty_q) hd.2) LiquidityFlag.Taker
      refine ⟨hid.trans haf.1, hside.trans haf.2.1, hqty.trans haf.2.2.1,
        ?_, ?_⟩
      · simp [hlen]
      · intro i
        cases i with
        | zero => rfl
        | succ j => simpa using hlvl j
    · exact ⟨rfl, rfl, rfl, rfl, fun i => rfl⟩

/-- No fills are attributed to an untouched depth copy. -/
theorem zipSelfNoFill (params : SimulatorParams) (now : Nat) (oid : Nat)
    (side : Side) :
    ∀ (la : List (Level × Int)),
      (la.zip la).filterMap (fun p =>
        if p.2.2 < p.1.2 then
          some (takerFillEvent params now oid side p.1.1.price_q
            (p.1.2 - p.2.2))
        else none) = [] := by
  intro la
  induction la with
  | nil => rfl
  | cons x xs ih => simp [ih]

/-- The emitted taker fills are exactly one per consumed level, each priced
at the consumed level's displayed price with the consumed quantity. -/
theorem sweepLevels_fills_eq (params : SimulatorParams) (now : Nat)
    (side : Side) (limit : Int) :
    ∀ (la : List (Level × Int)) (led : Ledger) (o : Order),
      (sweepLevels params now side limit led o la).2.2.2 =
        (la.zip (sweepLevels params now side limit led o la).2.2.1).filterMap
          (fun p => if p.2.2 < p.1.2 then
            some (takerFillEvent params now o.id o.side p.1.1.price_q
              (p.1.2 - p.2.2))
          else none) := by
  intro la
  induction la with
  | nil =>
    intro led o
    rfl
  | cons hd tl ih =>
    intro led o
    simp only [sweepLevels]
    split_ifs with h1 h2 h3
    · exact (zipSelfNoFill params now o.id o.side (hd :: tl)).symm
    · have := ih led o
      simp only [List.zip_cons_cons, List.filterMap_cons]
      rw [if_neg (lt_irrefl hd.2)]
      exact this
    · have hrem : 0 < o.qty_q - o.filled_qty_q := by omega
      have havail : 0 < hd.2 := by omega
      have hdq : 0 < min (o.qty_q - o.filled_qty_q) hd.2 := lt_min hrem havail
      have haf := apply_fill_order_fields params now led o hd.1.price_q
        (min (o.qty_q - o.filled_qty_q) hd.2) LiquidityFlag.Taker
      have hfe := apply_fill_fe params now led o hd.1.price_q
        (min (o.qty_q - o.filled_qty_q) hd.2) LiquidityFlag.Taker
      have := ih (apply_fill params now led o hd.1.price_q
          (min (o.qty_q - o.filled_qty_q) hd.2) LiquidityFlag.Taker).1
        (apply_fill params now led o hd.1.price_q
          (min (o.qty_q - o.filled_qty_q) hd.2) LiquidityFlag.Taker).2.1
      simp only [List.zip_cons_cons, List.filterMap_cons]
      rw [if_pos (by omega)]
      rw [hfe]
      rw [this, haf.1, haf.2.1]
      have harith : hd.2 - (hd.2 - min (o.qty_q - o.filled_qty_q) hd.2) =
          min (o.qty_q - o.filled_qty_q) hd.2 := by omega
      rw [harith]
      rfl
    · exact (zipSelfNoFill params now o.id o.side (hd :: tl)).symm

/-- The order's filled quantity advances by exactly the sum of the emitted
taker fill quantities. -/
theorem sweepLevels_conservation (params : SimulatorParams) (now : Nat)
    (side : Side) (limit : Int) :
    ∀ (la : List (Level × Int)) (led : Ledger) (o : Order),
      (sweepLevels params now side limit led o la).2.1.filled_qty_q =
        o.filled_qty_q +
          (((sweepLevels params now side limit led o la).2.2.2).map
            (fun fe => fe.qty_q)).sum := by
  intro la
  induction la with
  | nil =>
    intro led o
    simp [sweepLevels]
  | cons hd tl ih =>
    intro led o
    simp only [sweepLevels]
    split_ifs with h1 h2 h3
    · simp
    · simpa using ih led o
    · have haf := apply_fill_order_fields params now led o hd.1.price_q
        (min (o.qty_q - o.filled_qty_q) hd.2) LiquidityFlag.Taker
      have hfe := apply_fill_fe params now led o hd.1.price_q
        (min (o.qty_q - o.filled_qty_q) hd.2) LiquidityFlag.Taker
      have := ih (apply_fill params now led o hd.1.price_q
          (min (o.qty_q - o.filled_qty_q) hd.2) LiquidityFlag.Taker).1
        (apply_fill params now led o hd.1.price_q
          (min (o.qty_q - o.filled_qty_q) hd.2) LiquidityFlag.Taker).2.1
      simp only [List.map_cons, List.sum_cons, hfe]
      rw [this, haf.2.2.2]
      omega
    · simp

/-- Every emitted fill is a positive-quantity Taker at an admissible
price. -/
theorem sweepLevels_fill_props (params : SimulatorParams) (now : Nat)
    (side : Side) (limit : Int) :
    ∀ (la : List (Level × Int)) (led : Ledger) (o : Order),
      ∀ fe ∈ (sweepLevels params now side limit led o la).2.2.2,
        fe.liq = LiquidityFlag.Taker ∧ 0 < fe.qty_q ∧
          priceOkSide side limit fe.price_q = true := by
  intro la
  induction la with
  | nil =>
    intro led o fe hfe
    simp [sweepLevels] at hfe
  | cons hd tl ih =>
    intro led o fe hfe
    simp only [sweepLevels] at hfe
    split_ifs at hfe with h1 h2 h3
    · simp at hfe
    · exact ih led o fe hfe
    · have hfeq := apply_fill_fe params now led o hd.1.price_q
        (min (o.qty_q - o.filled_qty_q) hd.2) LiquidityFlag.Taker
      simp only [List.mem_cons] at hfe
      rcases hfe with rfl | hfe
      · rw [hfeq]
        refine ⟨rfl, by simp; omega, ?_⟩
        simpa using h2
      · exact ih _ _ fe hfe
    · simp at hfe

/-- The sweep stops exactly at the first level where the order is filled,
the price is inadmissible, or the depth copy ends; levels beyond the stop
are untouched and all levels before it satisfied the limit. -/
theorem sweepLevels_stop (params : SimulatorParams) (now : Nat)
    (side : Side) (limit : Int) :
    ∀ (la : List (Level × Int)) (led : Ledger) (o : Order),
      ∃ k, k ≤ la.length
        ∧ (∀ i, k ≤ i →
            (sweepLevels params now side limit led o la).2.2.1.getD i
              defaultLevelAvail = la.getD i defaultLevelAvail)
        ∧ (∀ i < k,
            priceOkSide side limit (la.getD i defaultLevelAvail).1.price_q =
              true)
        ∧ (k = la.length
          ∨ (sweepLevels params now side limit led o la).2.1.qty_q -
              (sweepLevels params now side limit led o la).2.1.filled_qty_q ≤ 0
          ∨ priceOkSide side limit
              (la.getD k defaultLevelAvail).1.price_q = false) := by
  intro la
  induction la with
  | nil =>
    intro led o
    exact ⟨0, Nat.le_refl 0, fun i _ => rfl, fun i hi => absurd hi (by omega),
      Or.inl rfl⟩
  | cons hd tl ih =>
    intro led o
    simp only [sweepLevels]
    split_ifs with h1 h2 h3
    · exact ⟨0, by simp, fun i _ => rfl, fun i hi => absurd hi (by omega),
        Or.inr (Or.inl (by simpa using h1))⟩
    · obtain ⟨k, hk, huntouched, hok, hwhy⟩ := ih led o
      refine ⟨k + 1, by simpa using hk, ?_, ?_, ?_⟩
      · intro i hi
        cases i with
        | zero => omega
        | succ j => simpa using huntouched j (by omega)
      · intro i hi
        cases i with
        | zero => simpa using h2
        | succ j => simpa using hok j (by omega)
      · rcases hwhy with h | h | h
        · exact Or.inl (by simp [h])
        · exact Or.inr (Or.inl h)
        · exact Or.inr (Or.inr (by simpa using h))
    · obtain ⟨k, hk, huntouched, hok, hwhy⟩ :=
        ih (apply_fill params now led o hd.1.price_q
          (min (o.qty_q - o.filled_qty_q) hd.2) LiquidityFlag.Taker).1
        (apply_fill params now led o hd.1.price_q
          (min (o.qty_q - o.filled_qty_q) hd.2) LiquidityFlag.Taker).2.1
      refine ⟨k + 1, by simpa using hk, ?_, ?_, ?_⟩
      · intro i hi
        cases i with
        | zero => omega
        | succ j => simpa using huntouched j (by omega)
      · intro i hi
        cases i with
        | zero => simpa using h2
        | succ j => simpa using hok j (by omega)
      · rcases hwhy with h | h | h
        · exact Or.inl (by simp [h])
        · exact Or.inr (Or.inl h)
        · exact Or.inr (Or.inr (by simpa using h))
    · refine ⟨0, by simp, fun i _ => rfl,
        fun i hi => absurd hi (by omega), ?_⟩
      refine Or.inr (Or.inr ?_)
      simpa using h2

/-- C5: a marketable resting limit order sweeps the opposing visible levels
from index 0 outward while the level price is admissible against its limit
and both residuals are positive; exactly one Taker FillEvent is emitted per
consumed level, priced at that level's displayed price with the consumed
quantity; the sweep stops on full fill, a limit-violating price, or
exhausted depth; and the FIFO pass threads one shared mutable depth copy
through all agent orders, for Buys against asks and mirrored for Sells
against bids. -/
theorem aggressive_sweep_spec (params : SimulatorParams) (now : Nat)
    (side : Side) (limit : Int) (la : List (Level × Int)) (led : Ledger)
    (o : Order) :
    (sweepLevels params now side limit led o la).2.2.2 =
      (la.zip (sweepLevels params now side limit led o la).2.2.1).filterMap
        (fun p => if p.2.2 < p.1.2 then
          some (takerFillEvent params now o.id o.side p.1.1.price_q
            (p.1.2 - p.2.2))
        else none)
    ∧ (∀ fe ∈ (sweepLevels params now side limit led o la).2.2.2,
        fe.liq = LiquidityFlag.Taker ∧ 0 < fe.qty_q ∧
          priceOkSide side limit fe.price_q = true)
    ∧ (sweepLevels params now side limit led o la).2.1.filled_qty_q =
        o.filled_qty_q +
          (((sweepLevels params now side limit led o la).2.2.2).map
            (fun fe => fe.qty_q)).sum
    ∧ (sweepLevels params now side limit led o la).2.2.1.length = la.length
    ∧ (∀ i, ((sweepLevels params now side limit led o la).2.2.1.getD i
        defaultLevelAvail).1 = (la.getD i defaultLevelAvail).1)
    ∧ (∃ k, k ≤ la.length
        ∧ (∀ i, k ≤ i →
            (sweepLevels params now side limit led o la).2.2.1.getD i
              defaultLevelAvail = la.getD i defaultLevelAvail)
        ∧ (∀ i < k,
            priceOkSide side limit (la.getD i defaultLevelAvail).1.price_q =
              true)
        ∧ (k = la.length
          ∨ (sweepLevels params now side limit led o la).2.1.qty_q -
              (sweepLevels params now side limit led o la).2.1.filled_qty_q
              ≤ 0
          ∨ priceOkSide side limit
              (la.getD k defaultLevelAvail).1.price_q = false))
    ∧ (∀ (os : List Order) (led2 : Ledger), is_resting o.state = true →
        o.side = side → o.type = OrderType.Limit →
        ¬(o.qty_q - o.filled_qty_q ≤ 0) →
        sweepFifo params now side limit led2 (o :: os) la =
          ((sweepFifo params now side limit
              (sweepLevels params now side limit led2 o la).1 os
              (sweepLevels params now side limit led2 o la).2.2.1).1,
           (sweepLevels params now side limit led2 o la).2.1 ::
             (sweepFifo params now side limit
               (sweepLevels params now side limit led2 o la).1 os
               (sweepLevels params now side limit led2 o la).2.2.1).2.1,
           (sweepFifo params now side limit
             (sweepLevels params now side limit led2 o la).1 os
             (sweepLevels params now side limit led2 o la).2.2.1).2.2.1,
           (sweepLevels params now side limit led2 o la).2.2.2 ++
             (sweepFifo params now side limit
               (sweepLevels params now side limit led2 o la).1 os
               (sweepLevels params now side limit led2 o la).2.2.1).2.2.2)) := by
  refine ⟨sweepLevels_fills_eq params now side limit la led o,
    sweepLevels_fill_props params now side limit la led o,
    sweepLevels_conservation params now side limit la led o,
    (sweepLevels_struct params now side limit la led o).2.2.2.1,
    (sweepLevels_struct params now side limit la led o).2.2.2.2,
    sweepLevels_stop params now side limit la led o, ?_⟩
  intro os led2 hr hs hl hrem
  simp only [sweepFifo]
  rw [if_neg (by simp [hr, hs, hl]), if_neg hrem]

/-- Witness for C5: the concrete sweep of a buy at limit 99 against the
one-level ask book 99x10. -/
theorem aggressive_sweep_spec_witness :
    (sweepLevels sampleParams 1 Side.Buy 99 sampleLedger
      { id := 1, client_order_id := 0, type := OrderType.Limit,
        side := Side.Buy, price_q := 99, qty_q := 2, filled_qty_q := 0,
        qty_ahead_q := 0, last_level_qty_q := 40, last_level_idx := 1,
        visibility := Visibility.Visible, submit_ts := 0, activate_ts := 0,
        state := OrderState.Active, reject_reason := RejectReason.None }
      [({ price_q := 99, qty_q := 10 }, 10)]).2.2.2 =
      (([({ price_q := 99, qty_q := 10 }, 10)] : List (Level × Int)).zip
        (sweepLevels sampleParams 1 Side.Buy 99 sampleLedger
          { id := 1, client_order_id := 0, type := OrderType.Limit,
            side := Side.Buy, price_q := 99, qty_q := 2, filled_qty_q := 0,
            qty_ahead_q := 0, last_level_qty_q := 40, last_level_idx := 1,
            visibility := Visibility.Visible, submit_ts := 0,
            activate_ts := 0, state := OrderState.Active,
            reject_reason := RejectReason.None }
          [({ price_q := 99, qty_q := 10 }, 10)]).2.2.1).filterMap
        (fun p => if p.2.2 < p.1.2 then
          some (takerFillEvent sampleParams 1 1 Side.Buy p.1.1.price_q
            (p.1.2 - p.2.2))
        else none) :=
  (aggressive_sweep_spec sampleParams 1 Side.Buy 99
    [({ price_q := 99, qty_q := 10 }, 10)] sampleLedger
    { id := 1, client_order_id := 0, type := OrderType.Limit,
      side := Side.Buy, price_q := 99, qty_q := 2, filled_qty_q := 0,
      qty_ahead_q := 0, last_level_qty_q := 40, last_level_idx := 1,
      visibility := Visibility.Visible, submit_ts := 0, activate_ts := 0,
      state := OrderState.Active, reject_reason := RejectReason.None }).1

/-- Witness for C6: the fill spec applied at a concrete maker fill. -/
theorem apply_fill_spec_witness :
    ∃ led' o' fe,
      apply_fill sampleParams 7 sampleLedger sampleOrderBuy 200000000 300000000
        LiquidityFlag.Maker = (led', o', fe)
      ∧ fe.notional_cash_q = Int.ediv (200000000 * 300000000) kPriceScale
      ∧ fe.fee_cash_q = Int.ediv (fe.notional_cash_q *
          Int.ofNat (if LiquidityFlag.Maker = LiquidityFlag.Maker then
            sampleParams.fees.maker_fee_ppm else sampleParams.fees.taker_fee_ppm))
          1000000
      ∧ fe.price_q = 200000000 ∧ fe.qty_q = 300000000
      ∧ fe.liq = LiquidityFlag.Maker ∧ fe.order_id = sampleOrderBuy.id
      ∧ (sampleOrderBuy.side = Side.Buy →
          led'.cash_q = sampleLedger.cash_q -
            (fe.notional_cash_q + fe.fee_cash_q)
          ∧ led'.position_qty_q = sampleLedger.position_qty_q + 300000000)
      ∧ (sampleOrderBuy.side = Side.Sell →
          led'.cash_q = sampleLedger.cash_q +
            (fe.notional_cash_q - fe.fee_cash_q)
          ∧ led'.position_qty_q = sampleLedger.position_qty_q - 300000000)
      ∧ led'.locked_cash_q = sampleLedger.locked_cash_q
      ∧ led'.locked_position_qty_q = sampleLedger.locked_position_qty_q
      ∧ o'.filled_qty_q = sampleOrderBuy.filled_qty_q + 300000000 :=
  apply_fill_spec sampleParams 7 sampleLedger sampleOrderBuy 200000000 300000000
    LiquidityFlag.Maker (by decide) (by decide)

/-- A successful `indexOf?` returns an in-range position holding the key. -/
theorem indexOfSpec (act : List Nat) (idx pos : Nat)
    (h : act.indexOf? idx = some pos) :
    pos < act.length ∧ act.getD pos 0 = idx := by
  unfold List.indexOf? at h
  rw [List.findIdx?_eq_some_iff_findIdx_eq] at h
  obtain ⟨hlt, hfind⟩ := h
  refine ⟨hlt, ?_⟩
  have hx := @List.findIdx_getElem Nat (fun x => x == idx) act
    (by rw [hfind]; exact hlt)
  simp only [beq_iff_eq] at hx
  rw [List.getD_eq_getElem _ _ hlt]
  rw [← hx]
  congr 1
  exact hfind.symm

/-- The swap-pop of `remove_active_*` really deletes the index: when the
index occurs exactly once in the dense active vector (the back-pointer
invariant), the removal succeeds, drops the index, shortens the vector by
one and introduces no foreign element. -/
theorem removeActiveListSpec (act : List Nat) (idx : Nat)
    (hc : act.count idx = 1) :
    ∃ act', removeActiveList act idx = some act' ∧ idx ∉ act'
      ∧ act'.length + 1 = act.length ∧ ∀ j ∈ act', j ∈ act := by
  have hmem : idx ∈ act := by
    rw [← List.count_pos_iff]; omega
  have hfind : act.indexOf? idx =
      some (List.findIdx (fun x => x == idx) act) := by
    unfold List.indexOf?
    exact List.findIdx?_eq_some_of_exists ⟨idx, hmem, by simp⟩
  obtain ⟨hpos, hget⟩ := indexOfSpec act idx _ hfind
  set pos := List.findIdx (fun x => x == idx) act with hposdef
  have hgetE : act[pos] = idx := by
    rw [← List.getD_eq_getElem act 0 hpos]; exact hget
  set T := act.take pos with hT
  set D := act.drop (pos + 1) with hD
  have hTD : T ++ idx :: D = act := by
    rw [hT, hD, ← hgetE, ← List.drop_eq_getElem_cons hpos]
    exact List.take_append_drop pos act
  have hcount : T.count idx = 0 ∧ D.count idx = 0 := by
    have := hc
    rw [← hTD, List.count_append, List.count_cons_self] at this
    omega
  have hT0 : idx ∉ T := List.count_eq_zero.mp hcount.1
  have hD0 : idx ∉ D := List.count_eq_zero.mp hcount.2
  have hset : act.set pos (act.getLastD 0) = T ++ act.getLastD 0 :: D := by
    rw [List.set_eq_take_append_cons_drop, if_pos hpos]
  have hract : removeActiveList act idx =
      some ((act.set pos (act.getLastD 0)).dropLast) := by
    unfold removeActiveList
    rw [hfind]
  by_cases hDnil : D = []
  · have hact2 : act = T ++ [idx] := by rw [← hTD, hDnil]
    have hlast : act.getLastD 0 = idx := by
      rw [List.getLastD_eq_getLast?, hact2, List.getLast?_concat]; rfl
    refine ⟨T, ?_, hT0, ?_, ?_⟩
    · rw [hract, hset, hlast, hDnil, List.dropLast_concat]
    · rw [hact2]; simp
    · intro j hj; rw [hact2]; exact List.mem_append_left _ hj
  · have hlastD : act.getLast? = D.getLast? := by
      rw [← hTD, List.getLast?_append_of_ne_nil T (by simp),
        show idx :: D = [idx] ++ D from rfl,
        List.getLast?_append_of_ne_nil [idx] hDnil]
    have hlmem : act.getLastD 0 ∈ D := by
      rw [List.getLastD_eq_getLast?, hlastD,
        List.getLast?_eq_getLast D hDnil]
      exact List.getLast_mem hDnil
    have hlne : act.getLastD 0 ≠ idx := fun h => hD0 (h ▸ hlmem)
    have hdrop : (T ++ act.getLastD 0 :: D).dropLast =
        T ++ act.getLastD 0 :: D.dropLast := by
      rw [List.dropLast_append_of_ne_nil _ (by simp)]
      congr 1
      have hcd : act.getLastD 0 :: D = [act.getLastD 0] ++ D := rfl
      rw [hcd, List.dropLast_append_of_ne_nil _ hDnil]
      rfl
    have hTsub : T ⊆ act := by
      rw [← hTD]; intro x hx; exact List.mem_append_left _ hx
    have hDsub : D ⊆ act := by
      rw [← hTD]
      intro x hx
      exact List.mem_append_right _ (List.mem_cons_of_mem _ hx)
    refine ⟨T ++ act.getLastD 0 :: D.dropLast, ?_, ?_, ?_, ?_⟩
    · rw [hract, hset, hdrop]
    · intro hmem2
      rcases List.mem_append.mp hmem2 with h | h
      · exact hT0 h
      · rcases List.mem_cons.mp h with h | h
        · exact hlne h.symm
        · exact hD0 (List.dropLast_subset D h)
    · have hDlen : 0 < D.length := List.length_pos.mpr hDnil
      have := congrArg List.length hTD
      simp only [List.length_append, List.length_cons] at this
      simp only [List.length_append, List.length_cons, List.length_dropLast]
      omega
    · intro j hj
      rcases List.mem_append.mp hj with h | h
      · exact hTsub h
      · rcases List.mem_cons.mp h with h | h
        · rw [h]; exact hDsub hlmem
        · exact hDsub (List.dropLast_subset D h)

/-- After `bucketEraseMemberWith` at price `p`, no bucket keyed `p` still
holds the erased index, provided bucket prices are distinct and the index
occurs at most once per bucket (the intrusive-list invariant). -/
theorem bucketEraseNotMem (defer : Bool) (p : Int) (idx : Nat)
    (bs : List (Int × Bucket)) (hpk : (bs.map Prod.fst).Nodup)
    (hcnt : ∀ pb ∈ bs, pb.2.members.count idx ≤ 1) :
    ∀ pb ∈ (bucketEraseMemberWith defer p idx bs).1, pb.1 = p →
      idx ∉ pb.2.members := by
  induction bs with
  | nil => intro pb h; simp [bucketEraseMemberWith] at h
  | cons qb rest ih =>
    obtain ⟨q, b⟩ := qb
    simp only [List.map_cons, List.nodup_cons] at hpk
    intro pb hpb hpeq
    by_cases hq : q = p
    · rw [bucketEraseMemberWith] at hpb
      rw [if_pos hq] at hpb
      by_cases hemp : ({ b with members := b.members.erase idx } :
          Bucket).members.isEmpty ∧ ¬defer
      · rw [if_pos hemp] at hpb
        exfalso
        apply hpk.1
        have hmm := List.mem_map_of_mem Prod.fst hpb
        rw [hpeq, ← hq] at hmm
        exact hmm
      · rw [if_neg hemp] at hpb
        rcases List.mem_cons.mp hpb with h | h
        · subst h
          intro hmem
          have h1 : b.members.count idx ≤ 1 :=
            hcnt (q, b) (List.mem_cons_self _ _)
          have h2 := List.count_erase_self idx b.members
          have h3 : 0 < (b.members.erase idx).count idx :=
            List.count_pos_iff.mpr hmem
          omega
        · exfalso
          apply hpk.1
          have hmm := List.mem_map_of_mem Prod.fst h
          rw [hpeq, ← hq] at hmm
          exact hmm
    · rw [bucketEraseMemberWith] at hpb
      rw [if_neg hq] at hpb
      rcases List.mem_cons.mp hpb with h | h
      · subst h; exact absurd hpeq hq
      · exact ih hpk.2 (fun x hx => hcnt x (List.mem_cons_of_mem _ hx)) pb h
          hpeq

/-- `remove_active_bid_` only touches the active-bid set, the bid buckets
and the best-bid summary. -/
theorem remove_active_bid_frame (s : SimState) (idx : Nat) :
    (remove_active_bid s idx).events = s.events ∧
    (remove_active_bid s idx).ledger = s.ledger ∧
    (remove_active_bid s idx).orders = s.orders ∧
    (remove_active_bid s idx).now = s.now ∧
    (remove_active_bid s idx).params = s.params := by
  unfold remove_active_bid
  cases removeActiveList s.activeBids idx <;> simp

/-- `remove_active_ask_` only touches the active-ask set, the ask buckets
and the best-ask summary. -/
theorem remove_active_ask_frame (s : SimState) (idx : Nat) :
    (remove_active_ask s idx).events = s.events ∧
    (remove_active_ask s idx).ledger = s.ledger ∧
    (remove_active_ask s idx).orders = s.orders ∧
    (remove_active_ask s idx).now = s.now ∧
    (remove_active_ask s idx).params = s.params := by
  unfold remove_active_ask
  cases removeActiveList s.activeAsks idx <;> simp

/-- `remove_active_bid_` deletes the order index from the active-bid set
and from its price bucket, under the active-set and bucket invariants. -/
theorem remove_active_bid_removes (s : SimState) (idx : Nat) (o : Order)
    (ho : s.orders.get? idx = some o)
    (hc : s.activeBids.count idx = 1)
    (hpk : (s.bidBuckets.map Prod.fst).Nodup)
    (hcnt : ∀ pb ∈ s.bidBuckets, pb.2.members.count idx ≤ 1) :
    idx ∉ (remove_active_bid s idx).activeBids ∧
    (remove_active_bid s idx).activeBids.length + 1 =
      s.activeBids.length ∧
    (∀ j ∈ (remove_active_bid s idx).activeBids, j ∈ s.activeBids) ∧
    ∀ pb ∈ (remove_active_bid s idx).bidBuckets, pb.1 = o.price_q →
      idx ∉ pb.2.members := by
  have hgo : s.orders.getD idx defaultOrder = o := by
    rw [List.getD_eq_getElem?_getD, ← List.get?_eq_getElem?, ho]
    rfl
  obtain ⟨act', heq, hnm, hlen, hsub⟩ := removeActiveListSpec _ _ hc
  unfold remove_active_bid
  rw [heq]
  dsimp only
  rw [hgo]
  exact ⟨hnm, hlen, hsub, bucketEraseNotMem _ _ _ _ hpk hcnt⟩

/-- `remove_active_ask_` deletes the order index from the active-ask set
and from its price bucket, under the active-set and bucket invariants. -/
theorem remove_active_ask_removes (s : SimState) (idx : Nat) (o : Order)
    (ho : s.orders.get? idx = some o)
    (hc : s.activeAsks.count idx = 1)
    (hpk : (s.askBuckets.map Prod.fst).Nodup)
    (hcnt : ∀ pb ∈ s.askBuckets, pb.2.members.count idx ≤ 1) :
    idx ∉ (remove_active_ask s idx).activeAsks ∧
    (remove_active_ask s idx).activeAsks.length + 1 =
      s.activeAsks.length ∧
    (∀ j ∈ (remove_active_ask s idx).activeAsks, j ∈ s.activeAsks) ∧
    ∀ pb ∈ (remove_active_ask s idx).askBuckets, pb.1 = o.price_q →
      idx ∉ pb.2.members := by
  have hgo : s.orders.getD idx defaultOrder = o := by
    rw [List.getD_eq_getElem?_getD, ← List.get?_eq_getElem?, ho]
    rfl
  obtain ⟨act', heq, hnm, hlen, hsub⟩ := removeActiveListSpec _ _ hc
  unfold remove_active_ask
  rw [heq]
  dsimp only
  rw [hgo]
  exact ⟨hnm, hlen, hsub, bucketEraseNotMem _ _ _ _ hpk hcnt⟩

/-- C8: `cancel(order_id)` returns `false` and leaves the state unchanged
when the id is unknown, the order is terminal, or the event log is full;
otherwise it transitions the order to Cancelled, releases the remaining
locks via `unlock_on_cancel` (computed from original minus filled
quantity), emits exactly one Cancel event, first unlinking a resting order
from its side's active set and price bucket, and returns `true`; under the
active-set and bucket invariants the unlinking really deletes the order's
index from the active vector and from its price bucket. -/
theorem cancel_spec (s : SimState) (order_id : Nat) :
    ((order_id = 0 ∨ s.idToIndex.length ≤ order_id ∨
        s.idToIndex.getD order_id none = none) →
      cancel s order_id = (false, s))
    ∧ (∀ idx o, s.idToIndex.getD order_id none = some idx →
        s.orders.get? idx = some o → is_terminal o.state = true →
        cancel s order_id = (false, s))
    ∧ (∀ idx o, s.idToIndex.getD order_id none = some idx →
        s.orders.get? idx = some o → is_terminal o.state = false →
        s.params.max_events ≤ s.events.length →
        cancel s order_id = (false, s))
    ∧ (∀ idx o, ¬(order_id = 0 ∨ s.idToIndex.length ≤ order_id) →
        s.idToIndex.getD order_id none = some idx →
        s.orders.get? idx = some o → is_terminal o.state = false →
        ¬ s.params.max_events ≤ s.events.length →
        cancel s order_id =
          (true,
            { (if is_resting o.state then
                 (if o.side = Side.Buy then remove_active_bid s idx
                  else remove_active_ask s idx)
               else s) with
              ledger := unlock_on_cancel s.ledger o,
              orders := s.orders.set idx
                { o with state := OrderState.Cancelled },
              events := s.events ++
                [{ ts := s.now, order_id := o.id, type := EventType.Cancel,
                   state := OrderState.Cancelled,
                   reject_reason := RejectReason.None }] }))
    ∧ (∀ idx o, s.orders.get? idx = some o → o.side = Side.Buy →
        s.activeBids.count idx = 1 →
        (s.bidBuckets.map Prod.fst).Nodup →
        (∀ pb ∈ s.bidBuckets, pb.2.members.count idx ≤ 1) →
        idx ∉ (remove_active_bid s idx).activeBids ∧
        (remove_active_bid s idx).activeBids.length + 1 =
          s.activeBids.length ∧
        ∀ pb ∈ (remove_active_bid s idx).bidBuckets, pb.1 = o.price_q →
          idx ∉ pb.2.members)
    ∧ (∀ idx o, s.orders.get? idx = some o → o.side = Side.Sell →
        s.activeAsks.count idx = 1 →
        (s.askBuckets.map Prod.fst).Nodup →
        (∀ pb ∈ s.askBuckets, pb.2.members.count idx ≤ 1) →
        idx ∉ (remove_active_ask s idx).activeAsks ∧
        (remove_active_ask s idx).activeAsks.length + 1 =
          s.activeAsks.length ∧
        ∀ pb ∈ (remove_active_ask s idx).askBuckets, pb.1 = o.price_q →
          idx ∉ pb.2.members) := by
  refine ⟨?_, ?_, ?_, ?_, ?_, ?_⟩
  · intro hbad
    by_cases hfirst : order_id = 0 ∨ s.idToIndex.length ≤ order_id
    · simp only [cancel]
      rw [if_pos hfirst]
    · have h3 : s.idToIndex.getD order_id none = none := by
        rcases hbad with h | h | h
        · exact absurd (Or.inl h) hfirst
        · exact absurd (Or.inr h) hfirst
        · exact h
      simp only [cancel]
      rw [if_neg hfirst, h3]
  · intro idx o hidx ho hterm
    by_cases hfirst : order_id = 0 ∨ s.idToIndex.length ≤ order_id
    · simp only [cancel]
      rw [if_pos hfirst]
    · simp only [cancel]
      rw [if_neg hfirst, hidx]
      dsimp only
      rw [ho]
      dsimp only
      rw [if_pos hterm]
  · intro idx o hidx ho hterm hfull
    by_cases hfirst : order_id = 0 ∨ s.idToIndex.length ≤ order_id
    · simp only [cancel]
      rw [if_pos hfirst]
    · simp only [cancel]
      rw [if_neg hfirst, hidx]
      dsimp only
      rw [ho]
      dsimp only
      rw [if_neg (by simp [hterm]), if_pos hfull]
  · intro idx o hv hidx ho hterm hev
    simp only [cancel]
    rw [if_neg hv, hidx]
    dsimp only
    rw [ho]
    dsimp only
    rw [if_neg (by simp [hterm]), if_neg hev]
    by_cases hres : is_resting o.state
    · rw [if_pos hres]
      by_cases hside : o.side = Side.Buy
      · rw [if_pos hside]
        obtain ⟨he, hl, hor, hn, hp⟩ := remove_active_bid_frame s idx
        simp only [push_event]
        rw [he, hl, hor, hn, hp, if_neg hev]
      · rw [if_neg hside]
        obtain ⟨he, hl, hor, hn, hp⟩ := remove_active_ask_frame s idx
        simp only [push_event]
        rw [he, hl, hor, hn, hp, if_neg hev]
    · rw [if_neg hres]
      simp only [push_event]
      rw [if_neg hev]
  · intro idx o ho hside hc hpk hcnt
    obtain ⟨h1, h2, _, h4⟩ := remove_active_bid_removes s idx o ho hc hpk hcnt
    exact ⟨h1, h2, h4⟩
  · intro idx o ho hside hc hpk hcnt
    obtain ⟨h1, h2, _, h4⟩ := remove_active_ask_removes s idx o ho hc hpk hcnt
    exact ⟨h1, h2, h4⟩

/-- A concrete resting (Active) buy order used to exercise `cancel`. -/
def cancelOrder : Order :=
  { id := 1, client_order_id := 0, type := OrderType.Limit, side := Side.Buy,
    price_q := 100, qty_q := 10, filled_qty_q := 0, qty_ahead_q := 0,
    last_level_qty_q := 0, last_level_idx := -1,
    visibility := Visibility.Visible, submit_ts := 0, activate_ts := 0,
    state := OrderState.Active, reject_reason := RejectReason.None }

/-- A concrete simulator state holding `cancelOrder` resting in the bid
bucket at price 100. -/
def cancelState : SimState :=
  { params := sampleParams, now := 5,
    ledger := { cash_q := 10000, position_qty_q := 0, locked_cash_q := 1000,
                locked_position_qty_q := 0 },
    orders := [cancelOrder], idToIndex := [none, some 0], pending := [],
    nextOrderId := 2, nextSeq := 2, activeBids := [0], activeAsks := [],
    bidBuckets := [(100,
      { members := [0], last_level_qty_q := 0, last_level_idx := -1,
        visibility := Visibility.Visible })],
    askBuckets := [], hasActiveBids := true, hasActiveAsks := false,
    bestActiveBid := 100, bestActiveAsk := 0, deferBucketErase := false,
    events := [], fills := [] }

/-- Witness for C8: cancelling the resting order in `cancelState` succeeds,
produces the Cancelled order, the unlocked ledger and the Cancel event, and
the unlinking removes index 0 from the active-bid set. -/
theorem cancel_spec_witness :
    cancel cancelState 1 =
      (true,
        { (if is_resting cancelOrder.state then
             (if cancelOrder.side = Side.Buy then
                remove_active_bid cancelState 0
              else remove_active_ask cancelState 0)
           else cancelState) with
          ledger := unlock_on_cancel cancelState.ledger cancelOrder,
          orders := cancelState.orders.set 0
            { cancelOrder with state := OrderState.Cancelled },
          events := cancelState.events ++
            [{ ts := cancelState.now, order_id := cancelOrder.id,
               type := EventType.Cancel, state := OrderState.Cancelled,
               reject_reason := RejectReason.None }] })
    ∧ 0 ∉ (remove_active_bid cancelState 0).activeBids :=
  ⟨(cancel_spec cancelState 1).2.2.2.1 0 cancelOrder (by decide) rfl rfl
      rfl (by decide),
   ((cancel_spec cancelState 1).2.2.2.2.1 0 cancelOrder rfl rfl (by decide)
      (by decide) (by decide)).1⟩

/-- The STP crossing predicate of `apply_stp_on_activate_` (sim_stp.cpp):
for a Buy incoming, a resting opposite order crosses when the incoming is a
Market order or the resting price is at most the incoming price; mirrored
for a Sell incoming. -/
def stpCrosses (side : Side) (incoming r : Order) : Bool :=
  match side with
  | Side.Buy =>
    is_resting r.state &&
      (decide (incoming.type = OrderType.Market) ||
        decide (r.price_q ≤ incoming.price_q))
  | Side.Sell =>
    is_resting r.state &&
      (decide (incoming.type = OrderType.Market) ||
        decide (incoming.price_q ≤ r.price_q))

/-- The opposite-side active vector swept by the STP cancel loop. -/
def stpOppList (s : SimState) (side : Side) : List Nat :=
  match side with
  | Side.Buy => s.activeAsks
  | Side.Sell => s.activeBids

/-- The opposite-side active-set removal used by the STP cancel loop. -/
def stpRemove (s : SimState) (side : Side) (oidx : Nat) : SimState :=
  match side with
  | Side.Buy => remove_active_ask s oidx
  | Side.Sell => remove_active_bid s oidx

/-- One cancellation of the STP cancel loop (sim_stp.cpp): release the
resting order's locks, transition it to Cancelled, emit the Cancel event
and swap-pop it out of the opposite active set. -/
def stpCancelStep (side : Side) (s : SimState) (oidx : Nat) : SimState :=
  let r := s.orders.getD oidx defaultOrder
  let s1 := { s with
              ledger := unlock_on_cancel s.ledger r,
              orders := s.orders.set oidx
                { r with state := OrderState.Cancelled } }
  let s2 := (push_event s1 s1.now r.id EventType.Cancel
    OrderState.Cancelled RejectReason.None).2
  stpRemove s2 side oidx

/-- `push_event` touches only the event log. -/
theorem push_event_frame (s : SimState) (ts id : Nat) (et : EventType)
    (st : OrderState) (rr : RejectReason) :
    ((push_event s ts id et st rr).2).activeAsks = s.activeAsks ∧
    ((push_event s ts id et st rr).2).activeBids = s.activeBids ∧
    ((push_event s ts id et st rr).2).orders = s.orders ∧
    ((push_event s ts id et st rr).2).ledger = s.ledger ∧
    ((push_event s ts id et st rr).2).now = s.now ∧
    ((push_event s ts id et st rr).2).params = s.params := by
  unfold push_event
  split <;> simp

/-- A successful swap-pop removal always shortens the vector by one. -/
theorem removeActiveListMemLen (act : List Nat) (oidx : Nat)
    (h : oidx ∈ act) :
    ∃ act', removeActiveList act oidx = some act' ∧
      act'.length + 1 = act.length := by
  have hfind : act.indexOf? oidx =
      some (List.findIdx (fun x => x == oidx) act) := by
    unfold List.indexOf?
    exact List.findIdx?_eq_some_of_exists ⟨oidx, h, by simp⟩
  refine ⟨_, by unfold removeActiveList; rw [hfind], ?_⟩
  rw [List.length_dropLast, List.length_set]
  have hne : act ≠ [] := List.ne_nil_of_mem h
  have : 0 < act.length := List.length_pos.mpr hne
  omega

/-- The swap-pop inside `stpCancelStep` lands in the opposite active
vector. -/
theorem stpCancelStep_opp (side : Side) (s : SimState) (oidx : Nat)
    (act' : List Nat)
    (heq : removeActiveList (stpOppList s side) oidx = some act') :
    stpOppList (stpCancelStep side s oidx) side = act' := by
  unfold stpCancelStep
  have h2 : ∀ s2 : SimState, s2.activeAsks = s.activeAsks →
      s2.activeBids = s.activeBids →
      stpOppList (stpRemove s2 side oidx) side = act' := by
    intro s2 hA hB
    cases side
    case Buy =>
      simp only [stpOppList] at heq ⊢
      simp only [stpRemove]
      unfold remove_active_ask
      rw [hA, heq]
    case Sell =>
      simp only [stpOppList] at heq ⊢
      simp only [stpRemove]
      unfold remove_active_bid
      rw [hB, heq]
  apply h2
  · exact (push_event_frame _ _ _ _ _ _).1
  · exact (push_event_frame _ _ _ _ _ _).2.1

/-- `stpCancelStep` strictly shrinks the opposite active vector. -/
theorem stpCancelStep_opp_len (side : Side) (s : SimState) (oidx : Nat)
    (h : oidx ∈ stpOppList s side) :
    (stpOppList (stpCancelStep side s oidx) side).length <
      (stpOppList s side).length := by
  obtain ⟨act', heq, hlen⟩ := removeActiveListMemLen _ _ h
  rw [stpCancelStep_opp side s oidx act' heq]
  omega

/-- An in-range `getD` read is a member of the list. -/
theorem listGetDMem (l : List Nat) (i : Nat) (h : i < l.length) :
    l.getD i 0 ∈ l := by
  rw [List.getD_eq_getElem _ _ h]
  exact List.getElem_mem h

/-- The STP CancelResting sweep of `apply_stp_on_activate_` (sim_stp.cpp):
iterate the opposite active vector by position; a crossing resting order is
cancelled via `stpCancelStep` (which swap-pops, so the position is not
advanced), otherwise the position advances. -/
def stpCancelLoop (side : Side) (incoming : Order) (s : SimState)
    (i : Nat) : SimState :=
  if h : i < (stpOppList s side).length then
    if stpCrosses side incoming
        (s.orders.getD ((stpOppList s side).getD i 0) defaultOrder) =
          true then
      stpCancelLoop side incoming
        (stpCancelStep side s ((stpOppList s side).getD i 0)) i
    else
      stpCancelLoop side incoming s (i + 1)
  else s
termination_by (stpOppList s side).length - i
decreasing_by
  · have hlt := stpCancelStep_opp_len side s ((stpOppList s side).getD i 0)
      (listGetDMem _ _ h)
    omega
  · omega

/-- `MarketSimulator::apply_stp_on_activate_` (sim_stp.cpp): detect a
self-cross against the best resting prices; under RejectIncoming, reject
the incoming (falling back to InsufficientResources when the reject event
cannot be logged) and release its locks; under CancelResting, count the
crossing resting orders, reject the incoming with InsufficientResources
when logging that many Cancel events would overflow the cap, and otherwise
cancel every crossing resting order and let the incoming activate. -/
def apply_stp_on_activate (s : SimState) (incoming : Order) :
    Bool × Order × SimState :=
  if s.params.stp = StpPolicy.None then (true, incoming, s)
  else if (if incoming.type = OrderType.Market then
      (if incoming.side = Side.Buy then s.hasActiveAsks
       else s.hasActiveBids)
    else if incoming.side = Side.Buy then
      s.hasActiveAsks && decide (s.bestActiveAsk ≤ incoming.price_q)
    else
      s.hasActiveBids && decide (incoming.price_q ≤ s.bestActiveBid)) =
      false then
    (true, incoming, s)
  else if s.params.stp = StpPolicy.RejectIncoming then
    let pe := push_event s s.now incoming.id EventType.Reject
      OrderState.Rejected RejectReason.SelfTradePrevention
    let rr := if pe.1 then RejectReason.SelfTradePrevention
              else RejectReason.InsufficientResources
    (false,
     { incoming with state := OrderState.Rejected, reject_reason := rr },
     { pe.2 with ledger := unlock_on_cancel pe.2.ledger incoming })
  else if s.params.max_events < s.events.length +
      (stpOppList s incoming.side).countP
        (fun oidx => stpCrosses incoming.side incoming
          (s.orders.getD oidx defaultOrder)) then
    let pe := push_event s s.now incoming.id EventType.Reject
      OrderState.Rejected RejectReason.InsufficientResources
    (false,
     { incoming with state := OrderState.Rejected,
                     reject_reason := RejectReason.InsufficientResources },
     { pe.2 with ledger := unlock_on_cancel pe.2.ledger incoming })
  else
    (true, incoming, stpCancelLoop incoming.side incoming s 0)

/-- `stpRemove` touches neither the order store, the ledger, the event log,
the clock nor the parameters. -/
theorem stpRemove_frame (s : SimState) (side : Side) (oidx : Nat) :
    (stpRemove s side oidx).events = s.events ∧
    (stpRemove s side oidx).ledger = s.ledger ∧
    (stpRemove s side oidx).orders = s.orders ∧
    (stpRemove s side oidx).now = s.now ∧
    (stpRemove s side oidx).params = s.params := by
  cases side
  case Buy => exact remove_active_ask_frame s oidx
  case Sell => exact remove_active_bid_frame s oidx

/-- `push_event` appends exactly the given event when below capacity, and
in any case only ever appends. -/
theorem push_event_events (s : SimState) (ts id : Nat) (et : EventType)
    (st : OrderState) (rr : RejectReason) :
    (¬ s.params.max_events ≤ s.events.length →
      ((push_event s ts id et st rr).2).events = s.events ++
        [{ ts := ts, order_id := id, type := et, state := st,
           reject_reason := rr }]) ∧
    ∃ evs, ((push_event s ts id et st rr).2).events = s.events ++ evs := by
  unfold push_event
  split
  · exact ⟨fun hc => absurd ‹_› hc, [], by simp⟩
  · exact ⟨fun _ => rfl, [_], rfl⟩

/-- The observable effect of one STP cancellation on the store, ledger,
clock and log. -/
theorem stpCancelStep_fields (side : Side) (s : SimState) (oidx : Nat) :
    (stpCancelStep side s oidx).orders =
      s.orders.set oidx
        { s.orders.getD oidx defaultOrder with
          state := OrderState.Cancelled } ∧
    (stpCancelStep side s oidx).ledger =
      unlock_on_cancel s.ledger (s.orders.getD oidx defaultOrder) ∧
    (stpCancelStep side s oidx).now = s.now ∧
    (stpCancelStep side s oidx).params = s.params ∧
    (¬ s.params.max_events ≤ s.events.length →
      (stpCancelStep side s oidx).events = s.events ++
        [{ ts := s.now, order_id := (s.orders.getD oidx defaultOrder).id,
           type := EventType.Cancel, state := OrderState.Cancelled,
           reject_reason := RejectReason.None }]) ∧
    ∃ evs, (stpCancelStep side s oidx).events = s.events ++ evs := by
  unfold stpCancelStep
  have key : ∀ s2 : SimState,
      s2.orders = s.orders.set oidx
        { s.orders.getD oidx defaultOrder with
          state := OrderState.Cancelled } →
      s2.ledger = unlock_on_cancel s.ledger
        (s.orders.getD oidx defaultOrder) →
      s2.now = s.now → s2.params = s.params →
      (¬ s.params.max_events ≤ s.events.length →
        s2.events = s.events ++
          [{ ts := s.now, order_id := (s.orders.getD oidx defaultOrder).id,
             type := EventType.Cancel, state := OrderState.Cancelled,
             reject_reason := RejectReason.None }]) →
      (∃ evs, s2.events = s.events ++ evs) →
      (stpRemove s2 side oidx).orders =
        s.orders.set oidx
          { s.orders.getD oidx defaultOrder with
            state := OrderState.Cancelled } ∧
      (stpRemove s2 side oidx).ledger =
        unlock_on_cancel s.ledger (s.orders.getD oidx defaultOrder) ∧
      (stpRemove s2 side oidx).now = s.now ∧
      (stpRemove s2 side oidx).params = s.params ∧
      (¬ s.params.max_events ≤ s.events.length →
        (stpRemove s2 side oidx).events = s.events ++
          [{ ts := s.now,
             order_id := (s.orders.getD oidx defaultOrder).id,
             type := EventType.Cancel, state := OrderState.Cancelled,
             reject_reason := RejectReason.None }]) ∧
      ∃ evs, (stpRemove s2 side oidx).events = s.events ++ evs := by
    intro s2 h1 h2 h3 h4 h5 h6
    obtain ⟨re, rl, ro, rn, rp⟩ := stpRemove_frame s2 side oidx
    exact ⟨by rw [ro, h1], by rw [rl, h2], by rw [rn, h3],
      by rw [rp, h4], fun hc => by rw [re, h5 hc],
      by obtain ⟨evs, hevs⟩ := h6; exact ⟨evs, by rw [re, hevs]⟩⟩
  apply key
  · exact (push_event_frame _ _ _ _ _ _).2.2.1
  · exact (push_event_frame _ _ _ _ _ _).2.2.2.1
  · exact (push_event_frame _ _ _ _ _ _).2.2.2.2.1
  · exact (push_event_frame _ _ _ _ _ _).2.2.2.2.2
  · exact fun hc => (push_event_events _ _ _ _ _ _).1 hc
  · exact (push_event_events _ _ _ _ _ _).2

/-- The swap-pop at a known position of a duplicate-free vector: the
position's element disappears, nothing foreign appears, the length drops
by one, and the not-yet-visited suffix is preserved up to permutation. -/
theorem removeActiveListNodupSpec (act : List Nat) (i : Nat)
    (hn : act.Nodup) (hi : i < act.length) :
    ∃ act', removeActiveList act (act.getD i 0) = some act' ∧
      act'.Nodup ∧ (∀ j ∈ act', j ∈ act) ∧ act.getD i 0 ∉ act' ∧
      act'.length + 1 = act.length ∧
      (act'.drop i).Perm (act.drop (i + 1)) := by
  set oidx := act.getD i 0 with hoidx
  have hgetE : act[i] = oidx :=
    (List.getD_eq_getElem _ _ hi).symm
  have hmem : oidx ∈ act := listGetDMem act i hi
  have hfind : act.indexOf? oidx =
      some (List.findIdx (fun x => x == oidx) act) := by
    unfold List.indexOf?
    exact List.findIdx?_eq_some_of_exists ⟨oidx, hmem, by simp⟩
  obtain ⟨hpos, hget⟩ := indexOfSpec act oidx _ hfind
  have hposi : List.findIdx (fun x => x == oidx) act = i := by
    have h1 : act[List.findIdx (fun x => x == oidx) act] =
        act[i] := by
      rw [hgetE, ← List.getD_eq_getElem act 0 hpos]
      exact hget
    exact (List.Nodup.getElem_inj_iff hn).mp h1
  have hfind' : act.indexOf? oidx = some i := by
    rw [hfind, hposi]
  have hract : removeActiveList act oidx =
      some ((act.set i (act.getLastD 0)).dropLast) := by
    unfold removeActiveList
    rw [hfind']
  clear_value oidx
  clear hoidx
  set T := act.take i with hT
  set D := act.drop (i + 1) with hD
  have hTD : T ++ oidx :: D = act := by
    rw [hT, hD, ← hgetE, ← List.drop_eq_getElem_cons hi]
    exact List.take_append_drop i act
  have hTlen : T.length = i := by
    rw [hT, List.length_take]
    omega
  have hn2 : (T ++ oidx :: D).Nodup := by rw [hTD]; exact hn
  rcases List.nodup_append.mp hn2 with ⟨hnT, hnOD, hdisj⟩
  rcases List.nodup_cons.mp hnOD with ⟨hoD, hnD⟩
  have hoT : oidx ∉ T := fun h =>
    hdisj h (List.mem_cons_self _ _)
  have hdisjTD : T.Disjoint D := by
    intro a haT haD
    exact hdisj haT (List.mem_cons_of_mem _ haD)
  have hset : act.set i (act.getLastD 0) = T ++ act.getLastD 0 :: D := by
    rw [List.set_eq_take_append_cons_drop, if_pos hi]
  have hTsub : ∀ j ∈ T, j ∈ act := by
    intro j hj
    rw [← hTD]
    exact List.mem_append_left _ hj
  have hDsub : ∀ j ∈ D, j ∈ act := by
    intro j hj
    rw [← hTD]
    exact List.mem_append_right _ (List.mem_cons_of_mem _ hj)
  have hlenTD := congrArg List.length hTD
  simp only [List.length_append, List.length_cons] at hlenTD
  by_cases hDnil : D = []
  · have hact2 : act = T ++ [oidx] := by rw [← hTD, hDnil]
    have hlast : act.getLastD 0 = oidx := by
      rw [List.getLastD_eq_getLast?, hact2, List.getLast?_concat]
      rfl
    refine ⟨T, ?_, hnT, hTsub, hoT, ?_, ?_⟩
    · rw [hract, hset, hlast, hDnil, List.dropLast_concat]
    · rw [hDnil] at hlenTD
      simp only [List.length_nil] at hlenTD
      omega
    · rw [hDnil, ← hTlen, List.drop_length]
  · have hlastD : act.getLast? = D.getLast? := by
      rw [← hTD, List.getLast?_append_of_ne_nil T (by simp),
        show oidx :: D = [oidx] ++ D from rfl,
        List.getLast?_append_of_ne_nil [oidx] hDnil]
    have hlast : act.getLastD 0 = D.getLast hDnil := by
      rw [List.getLastD_eq_getLast?, hlastD,
        List.getLast?_eq_getLast D hDnil]
      rfl
    have hdrop : (T ++ act.getLastD 0 :: D).dropLast =
        T ++ act.getLastD 0 :: D.dropLast := by
      rw [List.dropLast_append_of_ne_nil _ (by simp)]
      congr 1
      rw [show act.getLastD 0 :: D = [act.getLastD 0] ++ D from rfl,
        List.dropLast_append_of_ne_nil _ hDnil]
      rfl
    have hperm1 : (act.getLastD 0 :: D.dropLast).Perm D := by
      have hDL : D.dropLast ++ [act.getLastD 0] = D := by
        rw [hlast]
        exact List.dropLast_append_getLast hDnil
      calc (act.getLastD 0 :: D.dropLast).Perm
            (D.dropLast ++ [act.getLastD 0]) :=
          (List.perm_append_singleton _ _).symm
        _ = D := hDL
    have hpermAll : (T ++ act.getLastD 0 :: D.dropLast).Perm (T ++ D) :=
      List.Perm.append_left T hperm1
    have hlmem : act.getLastD 0 ∈ D := hperm1.mem_iff.mp
      (List.mem_cons_self _ _)
    refine ⟨T ++ act.getLastD 0 :: D.dropLast, ?_, ?_, ?_, ?_, ?_, ?_⟩
    · rw [hract, hset, hdrop]
    · exact hpermAll.nodup_iff.mpr
        (List.nodup_append.mpr ⟨hnT, hnD, hdisjTD⟩)
    · intro j hj
      rcases List.mem_append.mp (hpermAll.mem_iff.mp hj) with h | h
      · exact hTsub _ h
      · exact hDsub _ h
    · intro hin
      rcases List.mem_append.mp (hpermAll.mem_iff.mp hin) with h | h
      · exact hoT h
      · exact hoD h
    · have hDlen : 0 < D.length := List.length_pos.mpr hDnil
      simp only [List.length_append, List.length_cons,
        List.length_dropLast]
      omega
    · rw [← hTlen, List.drop_left]
      exact hperm1

/-- `getD` after `set` at a different position reads the original value. -/
theorem listGetDSetNe {α : Type} (l : List α) (i j : Nat) (v d : α)
    (hne : i ≠ j) : (l.set i v).getD j d = l.getD j d := by
  rw [List.getD_eq_getElem?_getD, List.getD_eq_getElem?_getD,
    List.getElem?_set_ne hne]

/-- The post-condition of the STP cancel sweep: every crossing resting
order of the opposite active vector (from the cursor on) ends Cancelled
with its Cancel event logged, every other order is untouched, the event
log only grows, the final ledger is the fold of `unlock_on_cancel` over a
list of cancelled crossing orders, and clock and parameters survive. -/
theorem stpCancelLoop_post (side : Side) (incoming : Order) :
    ∀ (n : Nat) (s : SimState) (i : Nat),
      (stpOppList s side).length - i ≤ n →
      (stpOppList s side).Nodup →
      (∀ j ∈ stpOppList s side, j < s.orders.length) →
      s.events.length + ((stpOppList s side).drop i).countP
          (fun j => stpCrosses side incoming
            (s.orders.getD j defaultOrder)) ≤ s.params.max_events →
      (∀ j ∈ (stpOppList s side).drop i,
          stpCrosses side incoming (s.orders.getD j defaultOrder) =
            true →
          (stpCancelLoop side incoming s i).orders.getD j defaultOrder =
            { s.orders.getD j defaultOrder with
              state := OrderState.Cancelled } ∧
          ({ ts := s.now,
             order_id := (s.orders.getD j defaultOrder).id,
             type := EventType.Cancel, state := OrderState.Cancelled,
             reject_reason := RejectReason.None } : Event) ∈
            (stpCancelLoop side incoming s i).events)
      ∧ (∀ j, (j ∈ (stpOppList s side).drop i →
            stpCrosses side incoming (s.orders.getD j defaultOrder) =
              false) →
          (stpCancelLoop side incoming s i).orders.getD j defaultOrder =
            s.orders.getD j defaultOrder)
      ∧ (∃ evs, (stpCancelLoop side incoming s i).events =
          s.events ++ evs)
      ∧ (∃ cancelled : List Order,
          (stpCancelLoop side incoming s i).ledger =
            cancelled.foldl unlock_on_cancel s.ledger ∧
          ∀ o ∈ cancelled, ∃ j ∈ (stpOppList s side).drop i,
            o = s.orders.getD j defaultOrder ∧
            stpCrosses side incoming o = true)
      ∧ (stpCancelLoop side incoming s i).now = s.now
      ∧ (stpCancelLoop side incoming s i).params = s.params := by
  intro n
  induction n with
  | zero =>
    intro s i hn0 hnd hidxb hcap
    have hges : ¬ i < (stpOppList s side).length := by omega
    have hunf : stpCancelLoop side incoming s i = s := by
      rw [stpCancelLoop, dif_neg hges]
    have hdropnil : (stpOppList s side).drop i = [] :=
      List.drop_eq_nil_of_le (by omega)
    rw [hunf]
    refine ⟨?_, fun j h2 => rfl, ⟨[], by simp⟩, ⟨[], rfl, by simp⟩,
      rfl, rfl⟩
    intro j hmem
    rw [hdropnil] at hmem
    cases hmem
  | succ n ih =>
    intro s i hn0 hnd hidxb hcap
    by_cases hilt : i < (stpOppList s side).length
    · have hdropcons : (stpOppList s side).drop i =
          (stpOppList s side).getD i 0 ::
            (stpOppList s side).drop (i + 1) := by
        rw [List.getD_eq_getElem _ _ hilt]
        exact List.drop_eq_getElem_cons hilt
      by_cases hcross : stpCrosses side incoming
          (s.orders.getD ((stpOppList s side).getD i 0) defaultOrder) =
            true
      · have hunf : stpCancelLoop side incoming s i =
            stpCancelLoop side incoming
              (stpCancelStep side s ((stpOppList s side).getD i 0)) i := by
          rw [stpCancelLoop]
          rw [dif_pos hilt, if_pos hcross]
        obtain ⟨act', hract, hnd', hsub', hnotm', hlen', hperm'⟩ :=
          removeActiveListNodupSpec (stpOppList s side) i hnd hilt
        have hopp' : stpOppList
            (stpCancelStep side s ((stpOppList s side).getD i 0)) side =
              act' :=
          stpCancelStep_opp side s ((stpOppList s side).getD i 0) act'
            hract
        obtain ⟨hso, hsl, hsn, hsp, hsevc, hsev⟩ :=
          stpCancelStep_fields side s ((stpOppList s side).getD i 0)
        have hoblt : ((stpOppList s side).getD i 0) < s.orders.length :=
          hidxb _ (listGetDMem _ _ hilt)
        have hpne : ∀ j, j ≠ (stpOppList s side).getD i 0 →
            (stpCancelStep side s
              ((stpOppList s side).getD i 0)).orders.getD j defaultOrder =
              s.orders.getD j defaultOrder := by
          intro j hne
          rw [hso]
          exact listGetDSetNe s.orders _ j _ _ (fun he => hne he.symm)
        have hdropsub : ∀ j ∈ act'.drop i,
            j ≠ (stpOppList s side).getD i 0 := by
          intro j hj he
          exact hnotm' (he ▸ List.drop_subset i act' hj)
        have hcnt' : (act'.drop i).countP
            (fun j => stpCrosses side incoming
              ((stpCancelStep side s
                ((stpOppList s side).getD i 0)).orders.getD j
                  defaultOrder)) =
            ((stpOppList s side).drop (i + 1)).countP
              (fun j => stpCrosses side incoming
                (s.orders.getD j defaultOrder)) := by
          rw [List.countP_congr
            (fun x hx => by rw [hpne x (hdropsub x hx)])]
          exact hperm'.countP_eq _
        rw [hdropcons, List.countP_cons, if_pos hcross] at hcap
        have hnev : ¬ s.params.max_events ≤ s.events.length := by omega
        have hstepev := hsevc hnev
        obtain ⟨ihP1, ihP2, ⟨evs, ihev⟩, ⟨cancelled, ihled, ihcan⟩,
            ihnow, ihpar⟩ :=
          ih (stpCancelStep side s ((stpOppList s side).getD i 0)) i
            (by rw [hopp']; omega)
            (by rw [hopp']; exact hnd')
            (by
              intro j hj
              rw [hopp'] at hj
              rw [hso, List.length_set]
              exact hidxb j (hsub' j hj))
            (by
              rw [hopp', hsp, hstepev, hcnt']
              simp only [List.length_append, List.length_cons,
                List.length_nil]
              omega)
        rw [hunf]
        refine ⟨?_, ?_, ?_, ?_, ?_, ?_⟩
        · intro j hmem hpj
          rw [hdropcons] at hmem
          rcases List.mem_cons.mp hmem with hj | hj
          · have hnotin : j ∉ act'.drop i := by
              rw [hj]
              exact fun hh => hnotm' (List.drop_subset i act' hh)
            have h2 := ihP2 j (fun hin =>
              absurd (by rw [hopp'] at hin; exact hin) hnotin)
            constructor
            · rw [h2, hj, hso, listGetDSet _ _ _ _ hoblt]
            · rw [hj, ihev, hstepev]
              exact List.mem_append_left _
                (List.mem_append_right _ (List.mem_cons_self _ _))
          · have hjne : j ≠ (stpOppList s side).getD i 0 := by
              intro he
              have : j ∈ act'.drop i := by
                rw [(@List.Perm.mem_iff Nat j _ _ hperm')]
                exact hj
              exact hdropsub j this he
            have hjd : j ∈ act'.drop i := by
              rw [(@List.Perm.mem_iff Nat j _ _ hperm')]
              exact hj
            have hp1 := ihP1 j (by rw [hopp']; exact hjd)
              (by rw [hpne j hjne]; exact hpj)
            rw [hpne j hjne, hsn] at hp1
            exact hp1
        · intro j himp
          by_cases hje : j = (stpOppList s side).getD i 0
          · have hmemj : j ∈ (stpOppList s side).drop i := by
              rw [hje, hdropcons]
              exact List.mem_cons_self _ _
            have hfalse := himp hmemj
            rw [hje] at hfalse
            rw [hfalse] at hcross
            exact absurd hcross (by decide)
          · have h2 := ihP2 j (fun hin => by
              rw [hpne j hje]
              refine himp ?_
              rw [hdropcons]
              refine List.mem_cons_of_mem _ ?_
              rw [hopp'] at hin
              rw [← (@List.Perm.mem_iff Nat j _ _ hperm')]
              exact hin)
            rw [hpne j hje] at h2
            exact h2
        · exact ⟨[{
              ts := s.now,
              order_id := (s.orders.getD ((stpOppList s side).getD i 0)
                  defaultOrder).id,
              type := EventType.Cancel,
              state := OrderState.Cancelled,
              reject_reason := RejectReason.None }] ++ evs,
            by rw [ihev, hstepev, List.append_assoc]⟩
        · refine ⟨s.orders.getD ((stpOppList s side).getD i 0)
              defaultOrder :: cancelled, ?_, ?_⟩
          · rw [List.foldl_cons, ← hsl, ihled]
          · intro o ho
            rcases List.mem_cons.mp ho with he | ho2
            · exact ⟨(stpOppList s side).getD i 0,
                by rw [hdropcons]; exact List.mem_cons_self _ _, he,
                by rw [he]; exact hcross⟩
            · obtain ⟨j, hj, he2, hp2⟩ := ihcan o ho2
              rw [hopp'] at hj
              have hjne := hdropsub j hj
              refine ⟨j, ?_, ?_, hp2⟩
              · rw [hdropcons]
                refine List.mem_cons_of_mem _ ?_
                rw [← (@List.Perm.mem_iff Nat j _ _ hperm')]
                exact hj
              · rw [he2, hpne j hjne]
        · rw [ihnow, hsn]
        · rw [ihpar, hsp]
      · have hunf : stpCancelLoop side incoming s i =
            stpCancelLoop side incoming s (i + 1) := by
          rw [stpCancelLoop]
          rw [dif_pos hilt, if_neg hcross]
        have hcap' : s.events.length +
            ((stpOppList s side).drop (i + 1)).countP
              (fun j => stpCrosses side incoming
                (s.orders.getD j defaultOrder)) ≤
              s.params.max_events := by
          rw [hdropcons, List.countP_cons] at hcap
          omega
        obtain ⟨ihP1, ihP2, ihev, ihled, ihnow, ihpar⟩ :=
          ih s (i + 1) (by omega) hnd hidxb hcap'
        rw [hunf]
        refine ⟨?_, ?_, ihev, ?_, ihnow, ihpar⟩
        · intro j hmem hpj
          rw [hdropcons] at hmem
          rcases List.mem_cons.mp hmem with hj | hj
          · subst hj
            exact absurd hpj hcross
          · exact ihP1 j hj hpj
        · intro j himp
          refine ihP2 j (fun hin => himp ?_)
          rw [hdropcons]
          exact List.mem_cons_of_mem _ hin
        · obtain ⟨cancelled, hled, hcan⟩ := ihled
          refine ⟨cancelled, hled, ?_⟩
          intro o ho
          obtain ⟨j, hj, he, hp⟩ := hcan o ho
          refine ⟨j, ?_, he, hp⟩
          rw [hdropcons]
          exact List.mem_cons_of_mem _ hj
    · have hunf : stpCancelLoop side incoming s i = s := by
        rw [stpCancelLoop, dif_neg hilt]
      have hdropnil : (stpOppList s side).drop i = [] :=
        List.drop_eq_nil_of_le (by omega)
      rw [hunf]
      refine ⟨?_, fun j h2 => rfl, ⟨[], by simp⟩, ⟨[], rfl, by simp⟩,
        rfl, rfl⟩
      intro j hmem
      rw [hdropnil] at hmem
      cases hmem

/-- C7: under CancelResting, when an activating order would self-cross,
either logging one Cancel per crossing resting order would overflow the
event cap — then the incoming is rejected with InsufficientResources and
the order store is untouched — or every crossing opposite-side resting
order (inclusive price predicate) is transitioned to Cancelled with its
Cancel event logged and its locks released through `unlock_on_cancel`,
non-crossing orders are untouched, and the incoming activates normally. -/
theorem stp_cancel_resting_spec (s : SimState) (incoming : Order)
    (hstp : s.params.stp = StpPolicy.CancelResting)
    (hsc : (if incoming.type = OrderType.Market then
        (if incoming.side = Side.Buy then s.hasActiveAsks
         else s.hasActiveBids)
      else if incoming.side = Side.Buy then
        s.hasActiveAsks && decide (s.bestActiveAsk ≤ incoming.price_q)
      else
        s.hasActiveBids && decide (incoming.price_q ≤ s.bestActiveBid)) =
        true) :
    (s.params.max_events < s.events.length +
        (stpOppList s incoming.side).countP
          (fun j => stpCrosses incoming.side incoming
            (s.orders.getD j defaultOrder)) →
      apply_stp_on_activate s incoming =
        (false,
         { incoming with
           state := OrderState.Rejected,
           reject_reason := RejectReason.InsufficientResources },
         { (push_event s s.now incoming.id EventType.Reject
             OrderState.Rejected
             RejectReason.InsufficientResources).2 with
           ledger := unlock_on_cancel
             (push_event s s.now incoming.id EventType.Reject
               OrderState.Rejected
               RejectReason.InsufficientResources).2.ledger incoming }) ∧
      (apply_stp_on_activate s incoming).2.2.orders = s.orders)
    ∧ (¬ s.params.max_events < s.events.length +
          (stpOppList s incoming.side).countP
            (fun j => stpCrosses incoming.side incoming
              (s.orders.getD j defaultOrder)) →
        (stpOppList s incoming.side).Nodup →
        (∀ j ∈ stpOppList s incoming.side, j < s.orders.length) →
        (apply_stp_on_activate s incoming).1 = true
        ∧ (apply_stp_on_activate s incoming).2.1 = incoming
        ∧ (∀ j ∈ stpOppList s incoming.side,
            stpCrosses incoming.side incoming
              (s.orders.getD j defaultOrder) = true →
            (apply_stp_on_activate s incoming).2.2.orders.getD j
              defaultOrder =
              { s.orders.getD j defaultOrder with
                state := OrderState.Cancelled } ∧
            ({ ts := s.now,
               order_id := (s.orders.getD j defaultOrder).id,
               type := EventType.Cancel, state := OrderState.Cancelled,
               reject_reason := RejectReason.None } : Event) ∈
              (apply_stp_on_activate s incoming).2.2.events)
        ∧ (∀ j, (j ∈ stpOppList s incoming.side →
              stpCrosses incoming.side incoming
                (s.orders.getD j defaultOrder) = false) →
            (apply_stp_on_activate s incoming).2.2.orders.getD j
              defaultOrder = s.orders.getD j defaultOrder)
        ∧ ∃ cancelled : List Order,
            (apply_stp_on_activate s incoming).2.2.ledger =
              cancelled.foldl unlock_on_cancel s.ledger ∧
            ∀ o ∈ cancelled, ∃ j ∈ stpOppList s incoming.side,
              o = s.orders.getD j defaultOrder ∧
              stpCrosses incoming.side incoming o = true) := by
  constructor
  · intro hcap
    have hred : apply_stp_on_activate s incoming =
        (false,
         { incoming with
           state := OrderState.Rejected,
           reject_reason := RejectReason.InsufficientResources },
         { (push_event s s.now incoming.id EventType.Reject
             OrderState.Rejected
             RejectReason.InsufficientResources).2 with
           ledger := unlock_on_cancel
             (push_event s s.now incoming.id EventType.Reject
               OrderState.Rejected
               RejectReason.InsufficientResources).2.ledger incoming }) := by
      unfold apply_stp_on_activate
      rw [hstp]
      rw [if_neg (by decide), hsc, if_neg (by decide),
        if_neg (by decide), if_pos hcap]
    refine ⟨hred, ?_⟩
    rw [hred]
    exact (push_event_frame _ _ _ _ _ _).2.2.1
  · intro hcap hnd hidxb
    have hred : apply_stp_on_activate s incoming =
        (true, incoming, stpCancelLoop incoming.side incoming s 0) := by
      unfold apply_stp_on_activate
      rw [hstp]
      rw [if_neg (by decide), hsc, if_neg (by decide),
        if_neg (by decide), if_neg hcap]
    obtain ⟨P1, P2, _, ⟨cancelled, hled, hcan⟩, _, _⟩ :=
      stpCancelLoop_post incoming.side incoming
        (stpOppList s incoming.side).length s 0 (by omega) hnd hidxb
        (by rw [List.drop_zero]; omega)
    rw [hred]
    refine ⟨rfl, rfl, ?_, ?_, ?_⟩
    · intro j hj hp
      exact P1 j (by rw [List.drop_zero]; exact hj) hp
    · intro j himp
      exact P2 j (fun hin =>
        himp (by rw [List.drop_zero] at hin; exact hin))
    · refine ⟨cancelled, hled, ?_⟩
      intro o ho
      obtain ⟨j, hj, he, hp⟩ := hcan o ho
      rw [List.drop_zero] at hj
      exact ⟨j, hj, he, hp⟩

/-- Parameters with the CancelResting STP policy, used by witnesses. -/
def stpParams : SimulatorParams :=
  { sampleParams with stp := StpPolicy.CancelResting }

/-- A concrete resting sell order crossed by the incoming buy below. -/
def stpRestingAsk : Order :=
  { id := 1, client_order_id := 0, type := OrderType.Limit,
    side := Side.Sell, price_q := 90, qty_q := 5, filled_qty_q := 0,
    qty_ahead_q := 0, last_level_qty_q := 0, last_level_idx := -1,
    visibility := Visibility.Visible, submit_ts := 0, activate_ts := 0,
    state := OrderState.Active, reject_reason := RejectReason.None }

/-- A concrete incoming buy that self-crosses the resting ask at 90. -/
def stpIncoming : Order :=
  { id := 2, client_order_id := 0, type := OrderType.Limit,
    side := Side.Buy, price_q := 100, qty_q := 3, filled_qty_q := 0,
    qty_ahead_q := 0, last_level_qty_q := 0, last_level_idx := -1,
    visibility := Visibility.Blind, submit_ts := 0, activate_ts := 7,
    state := OrderState.Pending, reject_reason := RejectReason.None }

/-- A concrete CancelResting state holding `stpRestingAsk` as the only
resting order. -/
def stpState : SimState :=
  { params := stpParams, now := 7,
    ledger := { cash_q := 10000, position_qty_q := 100,
                locked_cash_q := 300, locked_position_qty_q := 5 },
    orders := [stpRestingAsk], idToIndex := [none, some 0, none],
    pending := [], nextOrderId := 3, nextSeq := 3, activeBids := [],
    activeAsks := [0], bidBuckets := [],
    askBuckets := [(90,
      { members := [0], last_level_qty_q := 0, last_level_idx := -1,
        visibility := Visibility.Visible })],
    hasActiveBids := false, hasActiveAsks := true, bestActiveBid := 0,
    bestActiveAsk := 90, deferBucketErase := false, events := [],
    fills := [] }

/-- `sim::queue::init_on_activate` (sim_queue.hpp): initialise the
visibility/queue state of an order that just became Active, joining the
tail of the displayed level when it is found. -/
def init_on_activate (rec : Record) (o : Order) : Order :=
  if o.type ≠ OrderType.Limit ∨ o.price_q ≤ 0 then
    { o with visibility := Visibility.Blind, last_level_idx := -1,
             last_level_qty_q := 0, qty_ahead_q := 0 }
  else
    let m := if o.side = Side.Buy then bid_level rec.bids o.price_q
             else ask_level rec.asks o.price_q
    if ¬ m.within_range then
      { o with visibility := Visibility.Blind, last_level_idx := -1,
               last_level_qty_q := 0, qty_ahead_q := 0 }
    else if m.found then
      { o with visibility := Visibility.Visible, last_level_idx := m.idx,
               last_level_qty_q := m.qty_q, qty_ahead_q := m.qty_q }
    else
      { o with visibility := Visibility.Visible, last_level_idx := -1,
               last_level_qty_q := 0, qty_ahead_q := 0 }

/-- Write the per-bucket results back into the order store at the member
indices (the in-place mutations of the C++ loops). -/
def writeBack : List Order → List Nat → List Order → List Order
  | os, [], _ => os
  | os, _ :: _, [] => os
  | os, i :: is2, o :: oss => writeBack (os.set i o) is2 oss

/-- Modelled from the spec: run the passive queue/fill kernel
`apply_passive_fills_one_bucket` of the source on one price bucket of the
order store, writing the updated members back at their store indices (the
event and ledger bookkeeping of the passive fill path is not modelled
here; fills are visible through the orders' `filled_qty_q`). -/
def runPassiveBucket (alpha : Nat) (rec : Record) (side : Side)
    (os : List Order) (pb : Int × Bucket) : List Order × (Int × Bucket) :=
  let bv : BucketView :=
    { visibility := pb.2.visibility, last_level_idx := pb.2.last_level_idx,
      last_level_qty_q := pb.2.last_level_qty_q }
  let res := apply_passive_fills_one_bucket alpha rec pb.1 bv side
    (pb.2.members.map (fun i => os.getD i defaultOrder))
  (writeBack os pb.2.members res.2,
   (pb.1,
    { pb.2 with
      visibility := res.1.visibility,
      last_level_idx := res.1.last_level_idx,
      last_level_qty_q := res.1.last_level_qty_q }))

/-- Modelled from the spec: the passive phase over one side's bucket
array, bucket by bucket. -/
def stepPassiveSide (alpha : Nat) (rec : Record) (side : Side) :
    List (Int × Bucket) → List Order → List Order × List (Int × Bucket)
  | [], os => (os, [])
  | pb :: rest, os =>
    let r := runPassiveBucket alpha rec side os pb
    let rr := stepPassiveSide alpha rec side rest r.1
    (rr.1, r.2 :: rr.2)

/-- Modelled from the spec (section on the step control flow): the
"update queue/visibility for all resting orders, applying passive fills"
phase, over the bid buckets and then the ask buckets. -/
def stepPassivePhase (rec : Record) (s : SimState) : SimState :=
  let rb := stepPassiveSide s.params.alpha_ppm rec Side.Buy s.bidBuckets
    s.orders
  let ra := stepPassiveSide s.params.alpha_ppm rec Side.Sell s.askBuckets
    rb.1
  { s with orders := ra.1, bidBuckets := rb.2, askBuckets := ra.2 }

/-- Modelled from the spec: the aggressive phase over one side's bucket
array, sweeping each bucket's FIFO against the shared step-scoped depth
copy via the source-derived `sweepFifo`, threading ledger, depth copy and
taker fills across buckets. -/
def stepAggrSide (params : SimulatorParams) (now : Nat) (side : Side) :
    List (Int × Bucket) → Ledger → List Order → List (Level × Int) →
      List FillEvent →
      Ledger × List Order × List (Level × Int) × List FillEvent
  | [], led, os, la, fs => (led, os, la, fs)
  | pb :: rest, led, os, la, fs =>
    let r := sweepFifo params now side pb.1 led
      (pb.2.members.map (fun i => os.getD i defaultOrder)) la
    stepAggrSide params now side rest r.1
      (writeBack os pb.2.members r.2.1) r.2.2.1 (fs ++ r.2.2.2)

/-- Modelled from the spec: the "sweep marketable resting orders against
the current snapshot's opposing depth" phase — buys against the asks,
then sells against the bids, each side consuming one shared mutable depth
copy initialised from the snapshot's displayed quantities. -/
def stepAggressivePhase (rec : Record) (s : SimState) : SimState :=
  let rb := stepAggrSide s.params s.now Side.Buy s.bidBuckets s.ledger
    s.orders (rec.asks.map (fun l => (l, l.qty_q))) []
  let ra := stepAggrSide s.params s.now Side.Sell s.askBuckets rb.1 rb.2.1
    (rec.bids.map (fun l => (l, l.qty_q))) []
  { s with ledger := ra.1, orders := ra.2.1,
           fills := s.fills ++ rb.2.2.2 ++ ra.2.2.2 }

/-- The pending-activation loop of `MarketSimulator::step` (sim.cpp): pop
due entries from the pending min-heap, skip stale ids and non-Pending
orders, apply STP at the moment of activation, reject when the Activate
event cannot be logged, and otherwise activate: initialise the queue state
from the snapshot and link the order into its side's active set, bucket
and best-price summary. -/
def stepActivateLoop (rec : Record) :
    List PendingEntry → SimState → SimState
  | [], s => s
  | e :: rest, s =>
    if s.now < e.activate_ts then s
    else
      let s0 := { s with pending := rest }
      if e.order_id = 0 ∨ s0.idToIndex.length ≤ e.order_id then
        stepActivateLoop rec rest s0
      else
        match s0.idToIndex.getD e.order_id none with
        | none => stepActivateLoop rec rest s0
        | some idx =>
          let o := s0.orders.getD idx defaultOrder
          if o.state ≠ OrderState.Pending then stepActivateLoop rec rest s0
          else
            let st := apply_stp_on_activate s0 o
            let s1 := { st.2.2 with orders := st.2.2.orders.set idx st.2.1 }
            if st.1 = false then stepActivateLoop rec rest s1
            else
              let pe := push_event s1 s1.now o.id EventType.Activate
                OrderState.Active RejectReason.None
              if pe.1 = false then
                stepActivateLoop rec rest
                  { pe.2 with
                    ledger := unlock_on_cancel pe.2.ledger o,
                    orders := pe.2.orders.set idx
                      { o with
                        state := OrderState.Rejected,
                        reject_reason :=
                          RejectReason.InsufficientResources } }
              else
                let oa := init_on_activate rec
                  { o with state := OrderState.Active }
                let s2 := { pe.2 with orders := pe.2.orders.set idx oa }
                stepActivateLoop rec rest
                  (if oa.side = Side.Buy then
                    { s2 with
                      activeBids := s2.activeBids ++ [idx],
                      bidBuckets := bucketPushBack
                        (getOrInsertBucket s2.bidBuckets oa.price_q)
                        oa.price_q idx,
                      hasActiveBids := true,
                      bestActiveBid :=
                        if s2.hasActiveBids = false then oa.price_q
                        else max s2.bestActiveBid oa.price_q }
                  else
                    { s2 with
                      activeAsks := s2.activeAsks ++ [idx],
                      askBuckets := bucketPushBack
                        (getOrInsertBucket s2.askBuckets oa.price_q)
                        oa.price_q idx,
                      hasActiveAsks := true,
                      bestActiveAsk :=
                        if s2.hasActiveAsks = false then oa.price_q
                        else min s2.bestActiveAsk oa.price_q })

/-- Modelled from the spec: the step orchestrator of the current engine
generation, whose source is not part of this tree (the `step` present in
sim.cpp is an earlier generation that applies no fills; the spec and the
unit tests fix the control flow "set clock; passive queue/fill update;
aggressive sweep; activate due pending orders"). Composes the
source-derived phase kernels in exactly that order. -/
def step (rec : Record) (s : SimState) : SimState :=
  let s1 := stepPassivePhase rec { s with now := rec.ts_recv_ns }
  let s2 := stepAggressivePhase rec s1
  stepActivateLoop rec s2.pending s2

/-- `getD` through `map` when the default is a fixed point of the map. -/
theorem mapGetDPreserve {α : Type} (f : α → α) (l : List α) (k : Nat)
    (d : α) (hd : f d = d) : (l.map f).getD k d = f (l.getD k d) := by
  by_cases h : k < l.length
  · rw [List.getD_eq_getElem _ _ (by rw [List.length_map]; exact h),
      List.getD_eq_getElem _ _ h, List.getElem_map]
  · rw [List.getD_eq_default _ _ (by rw [List.length_map]; omega),
      List.getD_eq_default _ _ (by omega), hd]

/-- The passive allocator leaves non-resting or non-limit members in place
untouched. -/
theorem passive_alloc_skip (side : Side) (bp bb ba : Int)
    (vis : Visibility) (lidx lqty : Int) :
    ∀ (members : List Order) (Ep : Int) (k : Nat),
    ¬(is_resting (members.getD k defaultOrder).state = true ∧
      (members.getD k defaultOrder).type = OrderType.Limit) →
    ((passive_alloc side bp bb ba vis lidx lqty Ep members).1).getD k
      defaultOrder = members.getD k defaultOrder := by
  intro members
  induction members with
  | nil => intro Ep k hk; rfl
  | cons o rest ih =>
    intro Ep k hk
    rw [passive_alloc]
    by_cases hEp : Ep ≤ 0
    · rw [if_pos hEp]
    · rw [if_neg hEp]
      by_cases hsk : ¬(is_resting o.state ∧ o.type = OrderType.Limit)
      · rw [if_pos hsk]
        cases k with
        | zero => rfl
        | succ k2 => exact ih _ k2 hk
      · rw [if_neg hsk]
        cases k with
        | zero =>
          rw [not_not] at hsk
          exact absurd ⟨hsk.1, hsk.2⟩ hk
        | succ k2 => exact ih _ k2 hk

set_option maxHeartbeats 1000000 in
/-- The passive bucket kernel leaves non-resting or non-limit members in
place untouched. -/
theorem apply_passive_fills_one_bucket_skip (alpha : Nat) (rec : Record)
    (bp : Int) (b : BucketView) (side : Side) (members : List Order)
    (k : Nat)
    (hk : ¬(is_resting (members.getD k defaultOrder).state = true ∧
      (members.getD k defaultOrder).type = OrderType.Limit)) :
    ((apply_passive_fills_one_bucket alpha rec bp b side
      members).2).getD k defaultOrder = members.getD k defaultOrder := by
  have hfix : ∀ (g : Order → Order),
      (members.map (fun o =>
        if is_resting o.state ∧ o.type = OrderType.Limit then g o
        else o)).getD k defaultOrder = members.getD k defaultOrder := by
    intro g
    rw [mapGetDPreserve _ _ _ _ (by rw [if_neg (by decide)]),
      if_neg (fun hc => hk ⟨hc.1, hc.2⟩)]
  unfold apply_passive_fills_one_bucket
  dsimp only
  split <;> (try split) <;> (try split) <;> (try split) <;>
    (try split) <;> (try split) <;>
    first
      | rfl
      | exact hfix _
      | exact passive_alloc_skip _ _ _ _ _ _ _ members _ k hk

/-- `writeBack` preserves the value at an index as long as every result
written at that index carries that very value. -/
theorem writeBackGetD :
    ∀ (members : List Nat) (oss os : List Order) (idx : Nat) (v : Order),
    os.getD idx defaultOrder = v →
    (∀ k, k < members.length → members.getD k 0 = idx →
      oss.getD k defaultOrder = v) →
    (writeBack os members oss).getD idx defaultOrder = v := by
  intro members
  induction members with
  | nil => intro oss os idx v hv _; rw [writeBack]; exact hv
  | cons i is2 ih =>
    intro oss os idx v hv hks
    cases oss with
    | nil => rw [writeBack]; exact hv
    | cons o oss2 =>
      rw [writeBack]
      refine ih oss2 (os.set i o) idx v ?_ ?_
      · by_cases hie : i = idx
        · subst hie
          have ho : o = v := hks 0 (by simp) rfl
          subst ho
          by_cases hlt : i < os.length
          · rw [listGetDSet _ _ _ _ hlt]
          · rw [List.set_eq_of_length_le (by omega)]
            exact hv
        · rw [listGetDSetNe _ _ _ _ _ hie]
          exact hv
      · intro k hk hkidx
        exact hks (k + 1) (by simpa using Nat.succ_lt_succ hk) hkidx

/-- One passive bucket run leaves a Pending order's store slot unchanged. -/
theorem runPassiveBucket_pending (alpha : Nat) (rec : Record)
    (side : Side) (os : List Order) (pb : Int × Bucket) (idx : Nat)
    (hp : (os.getD idx defaultOrder).state = OrderState.Pending) :
    (runPassiveBucket alpha rec side os pb).1.getD idx defaultOrder =
      os.getD idx defaultOrder := by
  unfold runPassiveBucket
  refine writeBackGetD pb.2.members _ os idx _ rfl ?_
  intro k hk hkidx
  have hmemk : (pb.2.members.map
      (fun i => os.getD i defaultOrder)).getD k defaultOrder =
      os.getD idx defaultOrder := by
    rw [List.getD_eq_getElem _ _ (by rw [List.length_map]; exact hk),
      List.getElem_map, ← hkidx, List.getD_eq_getElem _ _ hk]
  rw [apply_passive_fills_one_bucket_skip alpha rec pb.1 _ side _ k
    (by rw [hmemk, hp]; simp [is_resting]), hmemk]

/-- A full passive side pass leaves a Pending order's slot unchanged. -/
theorem stepPassiveSide_pending (alpha : Nat) (rec : Record)
    (side : Side) :
    ∀ (bs : List (Int × Bucket)) (os : List Order) (idx : Nat),
    (os.getD idx defaultOrder).state = OrderState.Pending →
    (stepPassiveSide alpha rec side bs os).1.getD idx defaultOrder =
      os.getD idx defaultOrder := by
  intro bs
  induction bs with
  | nil => intro os idx hp; rfl
  | cons pb rest ih =>
    intro os idx hp
    rw [stepPassiveSide]
    have h1 := runPassiveBucket_pending alpha rec side os pb idx hp
    rw [ih _ idx (by rw [h1]; exact hp), h1]

/-- The whole passive phase leaves a Pending order's slot unchanged. -/
theorem stepPassivePhase_pending (rec : Record) (s : SimState)
    (idx : Nat)
    (hp : (s.orders.getD idx defaultOrder).state = OrderState.Pending) :
    (stepPassivePhase rec s).orders.getD idx defaultOrder =
      s.orders.getD idx defaultOrder := by
  unfold stepPassivePhase
  have h1 := stepPassiveSide_pending s.params.alpha_ppm rec Side.Buy
    s.bidBuckets s.orders idx hp
  have h2 := stepPassiveSide_pending s.params.alpha_ppm rec Side.Sell
    s.askBuckets _ idx (by rw [h1]; exact hp)
  rw [h2, h1]

/-- The aggressive FIFO sweep leaves non-resting, wrong-side or non-limit
members in place untouched. -/
theorem sweepFifo_skip (params : SimulatorParams) (now : Nat)
    (side : Side) (limit : Int) :
    ∀ (os : List Order) (led : Ledger) (la : List (Level × Int)) (k : Nat),
    ¬(is_resting (os.getD k defaultOrder).state = true ∧
      (os.getD k defaultOrder).side = side ∧
      (os.getD k defaultOrder).type = OrderType.Limit) →
    ((sweepFifo params now side limit led os la).2.1).getD k
      defaultOrder = os.getD k defaultOrder := by
  intro os
  induction os with
  | nil => intro led la k hk; rfl
  | cons o rest ih =>
    intro led la k hk
    rw [sweepFifo]
    by_cases hsk : ¬(is_resting o.state ∧ o.side = side ∧
        o.type = OrderType.Limit)
    · rw [if_pos hsk]
      cases k with
      | zero => rfl
      | succ k2 => exact ih _ _ k2 hk
    · rw [if_neg hsk]
      by_cases hrem : o.qty_q - o.filled_qty_q ≤ 0
      · rw [if_pos hrem]
        cases k with
        | zero => rfl
        | succ k2 => exact ih _ _ k2 hk
      · rw [if_neg hrem]
        cases k with
        | zero =>
          rw [not_not] at hsk
          exact absurd ⟨hsk.1, hsk.2.1, hsk.2.2⟩ hk
        | succ k2 => exact ih _ _ k2 hk

/-- A full aggressive side pass leaves a Pending order's slot unchanged. -/
theorem stepAggrSide_pending (params : SimulatorParams) (now : Nat)
    (side : Side) :
    ∀ (bs : List (Int × Bucket)) (led : Ledger) (os : List Order)
      (la : List (Level × Int)) (fs : List FillEvent) (idx : Nat),
    (os.getD idx defaultOrder).state = OrderState.Pending →
    (stepAggrSide params now side bs led os la fs).2.1.getD idx
      defaultOrder = os.getD idx defaultOrder := by
  intro bs
  induction bs with
  | nil => intro led os la fs idx hp; rfl
  | cons pb rest ih =>
    intro led os la fs idx hp
    rw [stepAggrSide]
    have hwb : (writeBack os pb.2.members
        (sweepFifo params now side pb.1 led
          (pb.2.members.map (fun i => os.getD i defaultOrder))
          la).2.1).getD idx defaultOrder = os.getD idx defaultOrder := by
      refine writeBackGetD pb.2.members _ os idx _ rfl ?_
      intro k hk hkidx
      have hmemk : (pb.2.members.map
          (fun i => os.getD i defaultOrder)).getD k defaultOrder =
          os.getD idx defaultOrder := by
        rw [List.getD_eq_getElem _ _ (by rw [List.length_map]; exact hk),
          List.getElem_map, ← hkidx, List.getD_eq_getElem _ _ hk]
      rw [sweepFifo_skip params now side pb.1 _ led la k
        (by rw [hmemk, hp]; simp [is_resting]), hmemk]
    rw [ih _ _ _ _ idx (by rw [hwb]; exact hp), hwb]

/-- The whole aggressive phase leaves a Pending order's slot unchanged. -/
theorem stepAggressivePhase_pending (rec : Record) (s : SimState)
    (idx : Nat)
    (hp : (s.orders.getD idx defaultOrder).state = OrderState.Pending) :
    (stepAggressivePhase rec s).orders.getD idx defaultOrder =
      s.orders.getD idx defaultOrder := by
  unfold stepAggressivePhase
  have h1 := stepAggrSide_pending s.params s.now Side.Buy s.bidBuckets
    s.ledger s.orders (rec.asks.map (fun l => (l, l.qty_q))) [] idx hp
  have h2 := stepAggrSide_pending s.params s.now Side.Sell s.askBuckets
    (stepAggrSide s.params s.now Side.Buy s.bidBuckets s.ledger s.orders
      (rec.asks.map (fun l => (l, l.qty_q))) []).1
    (stepAggrSide s.params s.now Side.Buy s.bidBuckets s.ledger s.orders
      (rec.asks.map (fun l => (l, l.qty_q))) []).2.1
    (rec.bids.map (fun l => (l, l.qty_q))) [] idx
    (by rw [h1]; exact hp)
  dsimp only
  rw [h2, h1]

/-- A `set` whose stored value keeps the slot's filled quantity preserves
every slot's filled quantity. -/
theorem setGetDFilled (os : List Order) (i : Nat) (v : Order)
    (hv : v.filled_qty_q = (os.getD i defaultOrder).filled_qty_q) :
    ∀ j, ((os.set i v).getD j defaultOrder).filled_qty_q =
      (os.getD j defaultOrder).filled_qty_q := by
  intro j
  by_cases hje : j = i
  · subst hje
    by_cases hlt : j < os.length
    · rw [listGetDSet _ _ _ _ hlt, hv]
    · rw [List.set_eq_of_length_le (by omega)]
  · rw [listGetDSetNe _ _ _ _ _ (fun he => hje he.symm)]

/-- The STP cancel sweep never changes any order's filled quantity. -/
theorem stpCancelLoop_filled (side : Side) (incoming : Order) :
    ∀ (n : Nat) (s : SimState) (i : Nat),
    (stpOppList s side).length - i ≤ n → ∀ j,
    (((stpCancelLoop side incoming s i).orders.getD j
      defaultOrder)).filled_qty_q =
      ((s.orders.getD j defaultOrder)).filled_qty_q := by
  intro n
  induction n with
  | zero =>
    intro s i hn0 j
    have hges : ¬ i < (stpOppList s side).length := by omega
    rw [stpCancelLoop, dif_neg hges]
  | succ n ih =>
    intro s i hn0 j
    by_cases hilt : i < (stpOppList s side).length
    · by_cases hcross : stpCrosses side incoming
          (s.orders.getD ((stpOppList s side).getD i 0) defaultOrder) =
            true
      · have hunf : stpCancelLoop side incoming s i =
            stpCancelLoop side incoming
              (stpCancelStep side s ((stpOppList s side).getD i 0)) i := by
          rw [stpCancelLoop]
          rw [dif_pos hilt, if_pos hcross]
        have hlen := stpCancelStep_opp_len side s
          ((stpOppList s side).getD i 0) (listGetDMem _ _ hilt)
        obtain ⟨hso, _, _, _, _, _⟩ :=
          stpCancelStep_fields side s ((stpOppList s side).getD i 0)
        rw [hunf, ih _ i (by omega) j, hso]
        exact setGetDFilled s.orders ((stpOppList s side).getD i 0)
          { s.orders.getD ((stpOppList s side).getD i 0) defaultOrder with
            state := OrderState.Cancelled } rfl j
      · have hunf : stpCancelLoop side incoming s i =
            stpCancelLoop side incoming s (i + 1) := by
          rw [stpCancelLoop]
          rw [dif_pos hilt, if_neg hcross]
        rw [hunf, ih s (i + 1) (by omega) j]
    · rw [stpCancelLoop, dif_neg hilt]

/-- STP on activation never changes any stored order's filled quantity. -/
theorem apply_stp_filled (s : SimState) (incoming : Order) (j : Nat) :
    (((apply_stp_on_activate s incoming).2.2.orders.getD j
      defaultOrder)).filled_qty_q =
      ((s.orders.getD j defaultOrder)).filled_qty_q := by
  unfold apply_stp_on_activate
  split <;> (try split) <;> (try split) <;> (try split) <;>
    (try split) <;> (try split) <;>
    first
      | rfl
      | (dsimp only; rw [(push_event_frame _ _ _ _ _ _).2.2.1])
      | exact stpCancelLoop_filled incoming.side incoming
          (stpOppList s incoming.side).length s 0 (by omega) j

/-- `init_on_activate` never changes the filled quantity. -/
theorem init_on_activate_filled (rec : Record) (o : Order) :
    (init_on_activate rec o).filled_qty_q = o.filled_qty_q := by
  unfold init_on_activate
  dsimp only
  split <;> (try split) <;> (try split) <;> (try split) <;> rfl

/-- The activation loop never changes any stored order's filled
quantity. -/
theorem stepActivateLoop_filled (rec : Record) :
    ∀ (pend : List PendingEntry) (s : SimState) (j : Nat),
    (((stepActivateLoop rec pend s).orders.getD j
      defaultOrder)).filled_qty_q =
      ((s.orders.getD j defaultOrder)).filled_qty_q := by
  intro pend
  induction pend with
  | nil => intro s j; rfl
  | cons e rest ih =>
    intro s j
    rw [stepActivateLoop]
    dsimp only
    by_cases hdue : s.now < e.activate_ts
    · rw [if_pos hdue]
    · rw [if_neg hdue]
      by_cases hid : e.order_id = 0 ∨ s.idToIndex.length ≤ e.order_id
      · rw [if_pos hid]
        exact ih _ j
      · rw [if_neg hid]
        cases hidx : s.idToIndex.getD e.order_id none with
        | none =>
          dsimp only
          exact ih _ j
        | some idx =>
          dsimp only
          by_cases hnp : (s.orders.getD idx defaultOrder).state ≠
              OrderState.Pending
          · rw [if_pos hnp]
            exact ih _ j
          · rw [if_neg hnp]
            set O := s.orders.getD idx defaultOrder with hO
            set T := apply_stp_on_activate { s with pending := rest } O
              with hT
            have hTfill : ∀ j2,
                ((T.2.2.orders.getD j2 defaultOrder)).filled_qty_q =
                  ((s.orders.getD j2 defaultOrder)).filled_qty_q :=
              fun j2 => apply_stp_filled { s with pending := rest } O j2
            have hTinc : T.2.1.filled_qty_q = O.filled_qty_q := by
              rw [hT]
              unfold apply_stp_on_activate
              split <;> (try split) <;> (try split) <;> (try split) <;>
                (try split) <;> (try split) <;> rfl
            have hS1 : ∀ j2,
                (((T.2.2.orders.set idx T.2.1).getD j2
                  defaultOrder)).filled_qty_q =
                  ((s.orders.getD j2 defaultOrder)).filled_qty_q := by
              intro j2
              rw [setGetDFilled T.2.2.orders idx T.2.1
                (by rw [hTinc, hO]; exact (hTfill idx).symm) j2]
              exact hTfill j2
            by_cases hok : T.1 = false
            · rw [if_pos hok, ih _ j]
              exact hS1 j
            · rw [if_neg hok]
              set W := ({ T.2.2 with
                orders := T.2.2.orders.set idx T.2.1 } : SimState) with hW
              set PE := push_event W T.2.2.now O.id EventType.Activate
                OrderState.Active RejectReason.None with hPE
              have hWfill : ∀ j2,
                  ((W.orders.getD j2 defaultOrder)).filled_qty_q =
                    ((s.orders.getD j2 defaultOrder)).filled_qty_q :=
                fun j2 => hS1 j2
              have hPEo : PE.2.orders = W.orders := by
                rw [hPE]
                exact (push_event_frame _ _ _ _ _ _).2.2.1
              by_cases hpe : PE.1 = false
              · rw [if_pos hpe, ih _ j]
                dsimp only
                rw [setGetDFilled PE.2.orders idx
                  { O with
                    state := OrderState.Rejected,
                    reject_reason := RejectReason.InsufficientResources }
                  (by rw [hPEo, hWfill idx, hO]) j, hPEo]
                exact hWfill j
              · rw [if_neg hpe, ih _ j]
                split <;>
                  (dsimp only
                   rw [setGetDFilled PE.2.orders idx
                     (init_on_activate rec
                       { O with state := OrderState.Active })
                     (by
                       rw [init_on_activate_filled, hPEo, hWfill idx, hO])
                     j, hPEo]
                   exact hWfill j)

/-- C1: the step orchestrator performs its phases in the strict order
"set the clock to the snapshot's receive timestamp; passive queue/fill
update for resting orders; aggressive sweep against the snapshot's
opposing depth; activation of due pending orders" — the first conjunct
pins `step` to exactly that composition — and consequently an order that
is still Pending when the step begins (in particular one activated during
this very step) receives no fill in this step: its filled quantity is
unchanged, because both fill phases skip non-resting orders and
activation never fills. -/
theorem step_phase_order (s : SimState) (rec : Record) :
    step rec s =
      stepActivateLoop rec
        (stepAggressivePhase rec
          (stepPassivePhase rec { s with now := rec.ts_recv_ns })).pending
        (stepAggressivePhase rec
          (stepPassivePhase rec { s with now := rec.ts_recv_ns }))
    ∧ ∀ idx, (s.orders.getD idx defaultOrder).state =
        OrderState.Pending →
        ((step rec s).orders.getD idx defaultOrder).filled_qty_q =
          (s.orders.getD idx defaultOrder).filled_qty_q := by
  refine ⟨rfl, ?_⟩
  intro idx hp
  have h1 := stepPassivePhase_pending rec
    { s with now := rec.ts_recv_ns } idx hp
  have h2 := stepAggressivePhase_pending rec
    (stepPassivePhase rec { s with now := rec.ts_recv_ns }) idx
    (by rw [h1]; exact hp)
  have h3 := stepActivateLoop_filled rec
    (stepAggressivePhase rec
      (stepPassivePhase rec { s with now := rec.ts_recv_ns })).pending
    (stepAggressivePhase rec
      (stepPassivePhase rec { s with now := rec.ts_recv_ns })) idx
  have hstep : step rec s =
      stepActivateLoop rec
        (stepAggressivePhase rec
          (stepPassivePhase rec { s with now := rec.ts_recv_ns })).pending
        (stepAggressivePhase rec
          (stepPassivePhase rec { s with now := rec.ts_recv_ns })) := rfl
  rw [hstep, h3, h2, h1]

/-- A concrete snapshot used by the step witness. -/
def stepRec : Record :=
  { ts_recv_ns := 50, bids := [{ price_q := 100, qty_q := 10 }],
    asks := [{ price_q := 101, qty_q := 10 }] }

/-- A concrete state holding one Pending buy order due at 60. -/
def stepState0 : SimState :=
  { params := sampleParams, now := 5, ledger := sampleLedger,
    orders := [{
      id := 1, client_order_id := 0, type := OrderType.Limit,
      side := Side.Buy, price_q := 100, qty_q := 4, filled_qty_q := 0,
      qty_ahead_q := 0, last_level_qty_q := 0, last_level_idx := -1,
      visibility := Visibility.Blind, submit_ts := 5, activate_ts := 60,
      state := OrderState.Pending, reject_reason := RejectReason.None }],
    idToIndex := [none, some 0], pending :=
      [{ activate_ts := 60, seq := 1, order_id := 1 }],
    nextOrderId := 2, nextSeq := 2, activeBids := [], activeAsks := [],
    bidBuckets := [], askBuckets := [], hasActiveBids := false,
    hasActiveAsks := false, bestActiveBid := 0, bestActiveAsk := 0,
    deferBucketErase := false, events := [], fills := [] }

/-- Witness for C1: the Pending order of `stepState0` keeps a zero filled
quantity through the step that would activate it. -/
theorem step_phase_order_witness :
    ((step stepRec stepState0).orders.getD 0
      defaultOrder).filled_qty_q =
      (stepState0.orders.getD 0 defaultOrder).filled_qty_q :=
  (step_phase_order stepState0 stepRec).2 0 (by decide)

/-- Witness for C7: activating the crossing buy in `stpState` succeeds and
the resting ask ends Cancelled. -/
theorem stp_cancel_resting_spec_witness :
    (apply_stp_on_activate stpState stpIncoming).1 = true
    ∧ (apply_stp_on_activate stpState stpIncoming).2.2.orders.getD 0
        defaultOrder =
      { stpState.orders.getD 0 defaultOrder with
        state := OrderState.Cancelled } :=
  ⟨((stp_cancel_resting_spec stpState stpIncoming rfl (by decide)).2
      (by decide) (by decide) (by decide)).1,
   (((stp_cancel_resting_spec stpState stpIncoming rfl (by decide)).2
      (by decide) (by decide) (by decide)).2.2.1 0 (by decide)
      (by decide)).1⟩

end Sim
